import Mathlib

/-!
The loopback TCP throughput benchmark `speedtest`.

A shallow embedding of `regression/apps/network/speedtest.c` and the properties
of its two roles, `start_server` and `start_client`.

The program talks to the operating system only through a handful of calls
(`socket`, `inet_pton`, `setsockopt`, `bind`, `listen`, `accept`, `connect`,
`send`, `recv`, `close`, `clock_gettime`).  The embedding makes the operating
system an explicit input: an environment record gives the value every call
returns (for `send` and `recv`, which are called in a loop, the value of the
`i`-th call), and the program is a function from that environment to

* the list of socket calls it made, in order, with arguments and results,
* the lines it printed,
* the set of socket handles left open, and
* its return value, or `none` while it is still inside a transfer loop.

The two transfer loops need not terminate (a peer may deliver nothing for
ever), so they take a bound `fuel` on the number of iterations; a loop that is
still iterating when the bound is reached ends as `LoopEnd.running`.  The bound
also stands for a call that blocks: the run in which `send` or `recv` number
`fuel + 1` never returns is observed as the run stopped after `fuel`
iterations.  The calls made before the loops are taken to return.

The two numbers a benchmark line shows are computed in `double` and printed
with two decimals; floating-point arithmetic is not modelled, and a benchmark
line is recorded by the `long` value `time` both numbers are computed from.
-/

namespace Speedtest

/-! ## Constants and machine integers -/

/-- The macro `TRANSFER_SIZE`, `(1024 * 1024 * 1024)`. -/
def TRANSFER_SIZE : Int := 1024 * 1024 * 1024

/-- The value of `sizeof(buf)` for `static char buf[4096]`. -/
def BUF_SIZE : Int := 4096

/-- Reduction of a mathematical integer to the value a 64-bit two-complement
`long` holds. -/
def wrapLong (x : Int) : Int := (x + 2 ^ 63) % 2 ^ 64 - 2 ^ 63

/-- The C structure `struct timespec`. -/
structure timespec where
  tv_sec : Int
  tv_nsec : Int
deriving DecidableEq, Repr

/-- The function `milliseconds`.  The argument is what
`clock_gettime(CLOCK_MONOTONIC, &tp)` delivers: `none` when it returns a
negative value, `some tp` when it fills in `tp`.  Division of `long` values
truncates (`Int.tdiv`), products and sums are reduced to `long`. -/
def milliseconds (clock : Option timespec) : Int :=
  match clock with
  | none => 0
  | some tp => wrapLong (wrapLong (tp.tv_sec * 1000) + Int.tdiv tp.tv_nsec (1000 * 1000))

/-! ## Observable behaviour -/

/-- One socket call made by the program, with its arguments of interest and
the value the operating system returned. -/
inductive Call
  | socket (ret : Int)
  | inet_pton (ret : Int)
  | setsockopt (fd ret : Int)
  | bind (fd ret : Int)
  | listen (fd ret : Int)
  | accept (fd ret : Int)
  | connect (fd ret : Int)
  | send (fd len ret : Int)
  | recv (fd len ret : Int)
  | close (fd : Int)
deriving DecidableEq, Repr

/-- One line of output.  `perror s` is the line `s: <description of errno>`
written by `perror(s)`; `printf tag time` is the line written by
`printf("tag %.2lf seconds, %.2lf Gbps\n", time / 1000.0,
TRANSFER_SIZE * 8.0 / time / 1000 / 1000)` for the value `time` of the `long`
variable of that name: the two `double` arguments are determined by `time`, and
their values and their formatting are left out of the model. -/
inductive Line
  | perror (s : String)
  | printf (tag : String) (time : Int)
deriving DecidableEq

/-- The state the program acts on: the socket calls made so far, the lines
printed so far and the set of open socket handles. -/
structure World where
  ops : List Call
  out : List Line
  fds : List Int
deriving DecidableEq

/-- The effect of a call on the set of open handles: a successful `socket` or
`accept` opens the handle it returns, `close` releases its argument. -/
def Call.effect (c : Call) (fds : List Int) : List Int :=
  match c with
  | .socket ret => if ret < 0 then fds else ret :: fds
  | .accept _ ret => if ret < 0 then fds else ret :: fds
  | .close fd => fds.erase fd
  | _ => fds

/-- Record a call and apply its effect on the open handles. -/
def World.call (w : World) (c : Call) : World :=
  { w with ops := w.ops ++ [c], fds := c.effect w.fds }

/-- Record several calls in order. -/
def World.calls (w : World) (cs : List Call) : World :=
  cs.foldl World.call w

/-- Record a printed line. -/
def World.print (w : World) (l : Line) : World :=
  { w with out := w.out ++ [l] }

/-- The world at the entry of a role: nothing called or printed yet, `fds`
open. -/
def World.entry (fds : List Int) : World := ⟨[], [], fds⟩

/-- The name the program passes to `perror` for a call. -/
def Call.name : Call → String
  | .socket _ => "socket"
  | .inet_pton _ => "inet_pton"
  | .setsockopt _ _ => "setsockopt"
  | .bind _ _ => "bind"
  | .listen _ _ => "listen"
  | .accept _ _ => "accept"
  | .connect _ _ => "connect"
  | .send _ _ _ => "send"
  | .recv _ _ _ => "recv"
  | .close _ => "close"

/-- The value a call returned (`close`, whose result the program ignores, is
recorded without one). -/
def Call.ret : Call → Int
  | .socket r => r
  | .inet_pton r => r
  | .setsockopt _ r => r
  | .bind _ r => r
  | .listen _ r => r
  | .accept _ r => r
  | .connect _ r => r
  | .send _ _ r => r
  | .recv _ _ r => r
  | .close _ => 0

/-- The number of bytes a `send` or `recv` call asked for (0 for other calls). -/
def Call.len : Call → Int
  | .send _ l _ => l
  | .recv _ l _ => l
  | _ => 0

/-- Whether a call reported failure, by the convention of its manual page:
`socket`, `accept`, `send` and `recv` return a negative value, `inet_pton`
returns something other than 1, the others return non-zero. -/
def Call.failed : Call → Bool
  | .socket r => decide (r < 0)
  | .inet_pton r => decide (r ≠ 1)
  | .setsockopt _ r => decide (r ≠ 0)
  | .bind _ r => decide (r ≠ 0)
  | .listen _ r => decide (r ≠ 0)
  | .accept _ r => decide (r < 0)
  | .connect _ r => decide (r ≠ 0)
  | .send _ _ r => decide (r < 0)
  | .recv _ _ r => decide (r < 0)
  | .close _ => false

/-- Total number of bytes the `send` and `recv` calls of a log transferred. -/
def transferred (cs : List Call) : Int := (cs.map Call.ret).sum

/-- Number of times a handle was passed to `close` in a log. -/
def closeCount (fd : Int) (cs : List Call) : Nat := cs.count (Call.close fd)

/-! ## The transfer loops -/

/-- How a transfer loop stopped: the condition `bytes > 0` became false
(`exited`, with the final value of `bytes`), the body ran
`perror(...); return -1;` (`failed`), or the iteration bound was reached with
`bytes > 0` still true (`running`, with the current value of `bytes`). -/
inductive LoopEnd
  | exited (bytes : Int)
  | failed
  | running (bytes : Int)
deriving DecidableEq, Repr

/-- The loop `while (bytes > 0) { ... }` of `start_server`, run for at most
`fuel` iterations from the `i`-th `send` call on.  `send i` is the value the
`i`-th call of `send` returns and `chunk` stands for `sizeof(buf)`.  The result
is the list of `send` calls made and how the loop stopped.

Inside the loop `bytes > 0`, so converting `bytes` to `size_t` for the
comparison with `sizeof(buf)` keeps its value, and `bytes - sz` with
`0 <= sz` cannot leave the range of `ssize_t`. -/
def send_loop (send : Nat → Int) (client_fd chunk : Int) : Nat → Nat → Int → List Call × LoopEnd
  | 0, _, bytes => ([], if bytes > 0 then .running bytes else .exited bytes)
  | fuel + 1, i, bytes =>
    if bytes > 0 then
      let sz := if bytes > chunk then chunk else bytes
      let ret := send i
      if ret < 0 then ([.send client_fd sz ret], .failed)
      else
        let rest := send_loop send client_fd chunk fuel (i + 1) (bytes - (ret >>> 0))
        (.send client_fd sz ret :: rest.1, rest.2)
    else ([], .exited bytes)

/-- The loop `while (bytes > 0) { ... }` of `start_client`, run for at most
`fuel` iterations from the `i`-th `recv` call on.  Every call asks for
`sizeof(buf)` bytes (`chunk`). -/
def recv_loop (recv : Nat → Int) (sockfd chunk : Int) : Nat → Nat → Int → List Call × LoopEnd
  | 0, _, bytes => ([], if bytes > 0 then .running bytes else .exited bytes)
  | fuel + 1, i, bytes =>
    if bytes > 0 then
      let sz := recv i
      if sz < 0 then ([.recv sockfd chunk sz], .failed)
      else
        let rest := recv_loop recv sockfd chunk fuel (i + 1) (bytes - (sz >>> 0))
        (.recv sockfd chunk sz :: rest.1, rest.2)
    else ([], .exited bytes)

/-! ## The two roles and `main` -/

/-- What the operating system returns to the calls of `start_server`. -/
structure ServerEnv where
  socket : Int
  inet_pton : Int
  setsockopt : Int
  bind : Int
  listen : Int
  accept : Int
  clock_start : Option timespec
  send : Nat → Int
  clock_end : Option timespec

/-- What the operating system returns to the calls of `start_client`. -/
structure ClientEnv where
  socket : Int
  inet_pton : Int
  connect : Int
  clock_start : Option timespec
  recv : Nat → Int
  clock_end : Option timespec

/-- The function `start_server`.  The result is the world when the function
stops and its return value (`none`: still inside the send loop after `fuel`
iterations). -/
def start_server (env : ServerEnv) (fuel : Nat) (w : World) : World × Option Int :=
  let bytes := TRANSFER_SIZE
  let sockfd := env.socket
  let w := w.call (.socket sockfd)
  if sockfd < 0 then (w.print (.perror "socket"), some (-1)) else
  let w := w.call (.inet_pton env.inet_pton)
  if env.inet_pton ≠ 1 then (w.print (.perror "inet_pton"), some (-1)) else
  let w := w.call (.setsockopt sockfd env.setsockopt)
  if env.setsockopt ≠ 0 then (w.print (.perror "setsockopt"), some (-1)) else
  let w := w.call (.bind sockfd env.bind)
  if env.bind ≠ 0 then (w.print (.perror "bind"), some (-1)) else
  let w := w.call (.listen sockfd env.listen)
  if env.listen ≠ 0 then (w.print (.perror "listen"), some (-1)) else
  let client_fd := env.accept
  let w := w.call (.accept sockfd client_fd)
  if client_fd < 0 then (w.print (.perror "accept"), some (-1)) else
  let time := milliseconds env.clock_start
  let loop := send_loop env.send client_fd BUF_SIZE fuel 0 bytes
  let w := w.calls loop.1
  match loop.2 with
  | .failed => (w.print (.perror "send"), some (-1))
  | .running _ => (w, none)
  | .exited _ =>
    let time := wrapLong (milliseconds env.clock_end - time)
    let w := w.print (.printf "[send]" time)
    let w := w.call (.close client_fd)
    let w := w.call (.close sockfd)
    (w, some 0)

/-- The function `start_client`.  The result is the world when the function
stops and its return value (`none`: still inside the receive loop after `fuel`
iterations). -/
def start_client (env : ClientEnv) (fuel : Nat) (w : World) : World × Option Int :=
  let bytes := TRANSFER_SIZE
  let sockfd := env.socket
  let w := w.call (.socket sockfd)
  if sockfd < 0 then (w.print (.perror "socket"), some (-1)) else
  let w := w.call (.inet_pton env.inet_pton)
  if env.inet_pton ≠ 1 then (w.print (.perror "inet_pton"), some (-1)) else
  let w := w.call (.connect sockfd env.connect)
  if env.connect ≠ 0 then (w.print (.perror "connect"), some (-1)) else
  let time := milliseconds env.clock_start
  let loop := recv_loop env.recv sockfd BUF_SIZE fuel 0 bytes
  let w := w.calls loop.1
  match loop.2 with
  | .failed => (w.print (.perror "recv"), some (-1))
  | .running _ => (w, none)
  | .exited _ =>
    let time := wrapLong (milliseconds env.clock_end - time)
    let w := w.print (.printf "[recv]" time)
    let w := w.call (.close sockfd)
    (w, some 0)

/-- The function `main`: the server role, then the client role, then
`return 0`.  The return values of the roles are discarded.  The result is
`none` while one of the roles is still inside its loop. -/
def main (senv : ServerEnv) (cenv : ClientEnv) (fuel : Nat) (w : World) : World × Option Int :=
  match start_server senv fuel w with
  | (w, none) => (w, none)
  | (w, some _) =>
    match start_client cenv fuel w with
    | (w, none) => (w, none)
    | (w, some _) => (w, some 0)

/-! ## Vocabulary for stating properties of the roles -/

/-- All six calls `start_server` makes before its loop succeed. -/
def ServerEnv.setup_ok (env : ServerEnv) : Prop :=
  0 ≤ env.socket ∧ env.inet_pton = 1 ∧ env.setsockopt = 0 ∧ env.bind = 0 ∧ env.listen = 0 ∧
    0 ≤ env.accept

instance (env : ServerEnv) : Decidable env.setup_ok := by
  unfold ServerEnv.setup_ok; infer_instance

/-- The six calls `start_server` makes before its loop, in program order. -/
def ServerEnv.setup_calls (env : ServerEnv) : List Call :=
  [.socket env.socket, .inet_pton env.inet_pton, .setsockopt env.socket env.setsockopt,
    .bind env.socket env.bind, .listen env.socket env.listen, .accept env.socket env.accept]

/-- The elapsed time `start_server` computes, `milliseconds() - time`. -/
def ServerEnv.elapsed (env : ServerEnv) : Int :=
  wrapLong (milliseconds env.clock_end - milliseconds env.clock_start)

/-- All three calls `start_client` makes before its loop succeed. -/
def ClientEnv.setup_ok (env : ClientEnv) : Prop :=
  0 ≤ env.socket ∧ env.inet_pton = 1 ∧ env.connect = 0

instance (env : ClientEnv) : Decidable env.setup_ok := by
  unfold ClientEnv.setup_ok; infer_instance

/-- The three calls `start_client` makes before its loop, in program order. -/
def ClientEnv.setup_calls (env : ClientEnv) : List Call :=
  [.socket env.socket, .inet_pton env.inet_pton, .connect env.socket env.connect]

/-- The elapsed time `start_client` computes, `milliseconds() - time`. -/
def ClientEnv.elapsed (env : ClientEnv) : Int :=
  wrapLong (milliseconds env.clock_end - milliseconds env.clock_start)

/-- A reading of the monotonic clock whose value in milliseconds a `long` can
hold: seconds not negative, nanoseconds within one second, and
`tv_sec * 1000 + tv_nsec / 1000000` at most `2^63 - 1`. -/
def timespec.fits (tp : timespec) : Prop :=
  0 ≤ tp.tv_sec ∧ 0 ≤ tp.tv_nsec ∧ tp.tv_nsec < 1000000000 ∧
    tp.tv_sec * 1000 + tp.tv_nsec / 1000000 < 2 ^ 63

instance (tp : timespec) : Decidable tp.fits := by
  unfold timespec.fits; infer_instance

/-- The order of clock readings: `a` is not later than `b`. -/
def timespec.le (a b : timespec) : Prop :=
  a.tv_sec < b.tv_sec ∨ (a.tv_sec = b.tv_sec ∧ a.tv_nsec ≤ b.tv_nsec)

instance (a b : timespec) : Decidable (a.le b) := by
  unfold timespec.le; infer_instance

/-! ## Example environments -/

/-- An operating system on which every call of `start_server` succeeds and
every `send` takes the 4096 bytes offered; the clock reads 100 s at the start
and 102.5 s at the end. -/
def good_server : ServerEnv :=
  { socket := 3, inet_pton := 1, setsockopt := 0, bind := 0, listen := 0, accept := 4,
    clock_start := some ⟨100, 0⟩, send := fun _ => 4096,
    clock_end := some ⟨102, 500000000⟩ }

/-- An operating system on which every call of `start_client` succeeds and
every `recv` delivers 4096 bytes; the clock reads 100 s at the start and
102.5 s at the end. -/
def good_client : ClientEnv :=
  { socket := 3, inet_pton := 1, connect := 0, clock_start := some ⟨100, 0⟩,
    recv := fun _ => 4096, clock_end := some ⟨102, 500000000⟩ }

/-- As `good_server`, but the port is in use: `bind` returns -1. -/
def bind_in_use : ServerEnv := { good_server with bind := -1 }

/-- As `good_client`, but nobody listens: `connect` returns -1. -/
def connection_refused : ClientEnv := { good_client with connect := -1 }

/-- As `good_client`, but the peer has closed the connection without sending
anything: every `recv` returns 0. -/
def truncated_peer : ClientEnv := { good_client with recv := fun _ => 0 }

/-- An operating system on which `socket` fails for `start_server`. -/
def no_socket : ServerEnv := { good_server with socket := -1 }

/-! ## Basic facts about the embedding -/

theorem shiftRight_zero_eq (x : Int) : x >>> 0 = x := by
  cases x <;> rfl

theorem send_loop_zero (send : Nat → Int) (fd chunk : Int) (i : Nat) (bytes : Int) :
    send_loop send fd chunk 0 i bytes
      = ([], if bytes > 0 then .running bytes else .exited bytes) := by
  simp [send_loop]

theorem send_loop_done (send : Nat → Int) (fd chunk : Int) (fuel i : Nat) (bytes : Int)
    (h : bytes ≤ 0) : send_loop send fd chunk fuel i bytes = ([], .exited bytes) := by
  cases fuel with
  | zero => simp [send_loop, not_lt.mpr h]
  | succ n => simp [send_loop, not_lt.mpr h]

theorem send_loop_fail (send : Nat → Int) (fd chunk : Int) (fuel i : Nat) (bytes : Int)
    (h : 0 < bytes) (hr : send i < 0) :
    send_loop send fd chunk (fuel + 1) i bytes
      = ([.send fd (if bytes > chunk then chunk else bytes) (send i)], .failed) := by
  simp [send_loop, h, hr]

theorem send_loop_step (send : Nat → Int) (fd chunk : Int) (fuel i : Nat) (bytes : Int)
    (h : 0 < bytes) (hr : 0 ≤ send i) :
    send_loop send fd chunk (fuel + 1) i bytes
      = (.send fd (if bytes > chunk then chunk else bytes) (send i)
            :: (send_loop send fd chunk fuel (i + 1) (bytes - send i)).1,
          (send_loop send fd chunk fuel (i + 1) (bytes - send i)).2) := by
  simp [send_loop, h, not_lt.mpr hr, shiftRight_zero_eq]

theorem recv_loop_zero (recv : Nat → Int) (fd chunk : Int) (i : Nat) (bytes : Int) :
    recv_loop recv fd chunk 0 i bytes
      = ([], if bytes > 0 then .running bytes else .exited bytes) := by
  simp [recv_loop]

theorem recv_loop_done (recv : Nat → Int) (fd chunk : Int) (fuel i : Nat) (bytes : Int)
    (h : bytes ≤ 0) : recv_loop recv fd chunk fuel i bytes = ([], .exited bytes) := by
  cases fuel with
  | zero => simp [recv_loop, not_lt.mpr h]
  | succ n => simp [recv_loop, not_lt.mpr h]

theorem recv_loop_fail (recv : Nat → Int) (fd chunk : Int) (fuel i : Nat) (bytes : Int)
    (h : 0 < bytes) (hr : recv i < 0) :
    recv_loop recv fd chunk (fuel + 1) i bytes = ([.recv fd chunk (recv i)], .failed) := by
  simp [recv_loop, h, hr]

theorem recv_loop_step (recv : Nat → Int) (fd chunk : Int) (fuel i : Nat) (bytes : Int)
    (h : 0 < bytes) (hr : 0 ≤ recv i) :
    recv_loop recv fd chunk (fuel + 1) i bytes
      = (.recv fd chunk (recv i) :: (recv_loop recv fd chunk fuel (i + 1) (bytes - recv i)).1,
          (recv_loop recv fd chunk fuel (i + 1) (bytes - recv i)).2) := by
  simp [recv_loop, h, not_lt.mpr hr, shiftRight_zero_eq]

/-! ## The send loop with results within the requested size -/

/-- Exact accounting of the send loop from any non-negative `bytes`: when every
call made returned between 0 and the size it asked for, no call is taken as an
error, and an exit leaves `bytes = 0` with the results adding up to the initial
value. -/
theorem send_loop_account (send : Nat → Int) (fd chunk : Int) :
    ∀ (fuel i : Nat) (bytes : Int), 0 ≤ bytes →
      (∀ c ∈ (send_loop send fd chunk fuel i bytes).1, 0 ≤ c.ret ∧ c.ret ≤ c.len) →
      (send_loop send fd chunk fuel i bytes).2 ≠ .failed ∧
      ∀ b, (send_loop send fd chunk fuel i bytes).2 = .exited b →
        b = 0 ∧ transferred (send_loop send fd chunk fuel i bytes).1 = bytes := by
  intro fuel
  induction fuel with
  | zero =>
    intro i bytes hb _
    rw [send_loop_zero]
    by_cases hpos : bytes > 0
    · simp [hpos]
    · have h0 : bytes = 0 := by omega
      simp [h0, transferred]
  | succ n ih =>
    intro i bytes hb hc
    by_cases hpos : bytes > 0
    · by_cases hr : send i < 0
      · rw [send_loop_fail send fd chunk n i bytes hpos hr] at hc
        have := hc _ (List.mem_singleton.mpr rfl)
        simp only [Call.ret] at this
        omega
      · have hr0 : 0 ≤ send i := not_lt.mp hr
        rw [send_loop_step send fd chunk n i bytes hpos hr0] at hc ⊢
        have hhead := hc _ (List.mem_cons_self _ _)
        simp only [Call.ret, Call.len] at hhead
        have hle : send i ≤ bytes := by
          split_ifs at hhead <;> omega
        have htail : ∀ c ∈ (send_loop send fd chunk n (i + 1) (bytes - send i)).1,
            0 ≤ c.ret ∧ c.ret ≤ c.len := fun c hmem => hc c (List.mem_cons_of_mem _ hmem)
        obtain ⟨hnf, hex⟩ := ih (i + 1) (bytes - send i) (by omega) htail
        refine ⟨hnf, fun b hbexit => ?_⟩
        obtain ⟨hb0, hsum⟩ := hex b hbexit
        refine ⟨hb0, ?_⟩
        simp only [transferred, List.map_cons, List.sum_cons, Call.ret] at hsum ⊢
        omega
    · have h0 : bytes = 0 := by omega
      rw [send_loop_done send fd chunk (n + 1) i bytes (by omega)]
      simp [h0, transferred]

/-- When every call transfers exactly what it asked for and `bytes` is `k`
whole chunks, the send loop makes exactly `k` calls of one chunk each and exits
with `bytes = 0`, for every iteration bound of at least `k`. -/
theorem send_loop_whole_chunks (send : Nat → Int) (fd chunk : Int) (hchunk : 0 < chunk) :
    ∀ (k fuel i : Nat), k ≤ fuel →
      (∀ c ∈ (send_loop send fd chunk fuel i (k * chunk)).1, c.ret = c.len) →
      send_loop send fd chunk fuel i (k * chunk)
        = (List.replicate k (.send fd chunk chunk), .exited 0) := by
  intro k
  induction k with
  | zero =>
    intro fuel i _ _
    simpa using send_loop_done send fd chunk fuel i 0 (le_refl 0)
  | succ k ih =>
    intro fuel i hk hc
    obtain ⟨n, rfl⟩ : ∃ n, fuel = n + 1 := ⟨fuel - 1, by omega⟩
    have hpos : 0 < ((k + 1 : Nat) : Int) * chunk := by positivity
    have hsz : (if ((k + 1 : Nat) : Int) * chunk > chunk then chunk
        else ((k + 1 : Nat) : Int) * chunk) = chunk := by
      split_ifs with h
      · rfl
      · have hk1 : ((k + 1 : Nat) : Int) * chunk = (k : Int) * chunk + chunk := by push_cast; ring
        have hk0 : 0 ≤ (k : Int) * chunk := by positivity
        omega
    have hret : send i = chunk := by
      by_cases hr : send i < 0
      · rw [send_loop_fail send fd chunk n i _ hpos hr] at hc
        have := hc _ (List.mem_singleton.mpr rfl)
        simp only [Call.ret, Call.len, hsz] at this
        exact this
      · rw [send_loop_step send fd chunk n i _ hpos (not_lt.mp hr)] at hc
        have := hc _ (List.mem_cons_self _ _)
        simp only [Call.ret, Call.len, hsz] at this
        exact this
    have hr0 : 0 ≤ send i := by omega
    have hnext : ((k + 1 : Nat) : Int) * chunk - send i = (k : Int) * chunk := by
      rw [hret]; push_cast; ring
    rw [send_loop_step send fd chunk n i _ hpos hr0] at hc ⊢
    rw [hnext] at hc ⊢
    have htail : ∀ c ∈ (send_loop send fd chunk n (i + 1) (k * chunk)).1, c.ret = c.len :=
      fun c hmem => hc c (List.mem_cons_of_mem _ hmem)
    rw [ih n (i + 1) (by omega) htail, hsz, hret]
    simp [List.replicate_succ]

/-- The calls of the send loop when every call returns one whole chunk and
`bytes` is `k` whole chunks: each asks for one chunk and gets it. -/
theorem send_loop_const_chunk (fd chunk : Int) (hchunk : 0 < chunk) :
    ∀ (fuel k i : Nat), ∀ c ∈ (send_loop (fun _ => chunk) fd chunk fuel i (k * chunk)).1,
      c = .send fd chunk chunk := by
  intro fuel
  induction fuel with
  | zero => intro k i c hc; simp [send_loop_zero] at hc
  | succ n ih =>
    intro k i c hc
    cases k with
    | zero =>
      rw [send_loop_done _ fd chunk (n + 1) i _ (by simp)] at hc
      simp at hc
    | succ k =>
      have hpos : 0 < ((k + 1 : Nat) : Int) * chunk := by positivity
      have hk0 : 0 ≤ (k : Int) * chunk := by positivity
      have hk1 : ((k + 1 : Nat) : Int) * chunk = (k : Int) * chunk + chunk := by push_cast; ring
      rw [send_loop_step _ fd chunk n i _ hpos (le_of_lt hchunk)] at hc
      have hnext : ((k + 1 : Nat) : Int) * chunk - chunk = (k : Int) * chunk := by omega
      rw [hnext] at hc
      rcases List.mem_cons.mp hc with h | h
      · rw [h]
        split_ifs with hgt
        · rfl
        · have : ((k + 1 : Nat) : Int) * chunk = chunk := by omega
          rw [this]
      · exact ih k (i + 1) c h

/-- At whatever point the send loop is stopped without a failure, the current
value of `bytes` is the initial value less the results of the calls made. -/
theorem send_loop_remaining (send : Nat → Int) (fd chunk : Int) :
    ∀ (fuel i : Nat) (bytes b : Int),
      ((send_loop send fd chunk fuel i bytes).2 = .running b ∨
        (send_loop send fd chunk fuel i bytes).2 = .exited b) →
      b = bytes - transferred (send_loop send fd chunk fuel i bytes).1 := by
  intro fuel
  induction fuel with
  | zero =>
    intro i bytes b h
    rw [send_loop_zero] at h ⊢
    by_cases hpos : bytes > 0 <;> simp [hpos, transferred] at h ⊢ <;> omega
  | succ n ih =>
    intro i bytes b h
    by_cases hpos : bytes > 0
    · by_cases hr : send i < 0
      · rw [send_loop_fail send fd chunk n i bytes hpos hr] at h
        simp at h
      · rw [send_loop_step send fd chunk n i bytes hpos (not_lt.mp hr)] at h ⊢
        have := ih (i + 1) (bytes - send i) b h
        simp only [transferred, List.map_cons, List.sum_cons, Call.ret] at this ⊢
        omega
    · rw [send_loop_done send fd chunk (n + 1) i bytes (by omega)] at h ⊢
      simp [transferred] at h ⊢
      omega

theorem transfer_size_chunks : TRANSFER_SIZE = ((262144 : Nat) : Int) * BUF_SIZE := by
  norm_num [TRANSFER_SIZE, BUF_SIZE]

/-! ## General facts about both loops -/

theorem transferred_le (m : Int) :
    ∀ cs : List Call, (∀ c ∈ cs, c.ret ≤ m) → transferred cs ≤ cs.length * m := by
  intro cs
  induction cs with
  | nil => intro _; simp [transferred]
  | cons c cs ih =>
    intro h
    have h1 := h c (List.mem_cons_self _ _)
    have h2 := ih (fun d hd => h d (List.mem_cons_of_mem _ hd))
    simp only [transferred, List.map_cons, List.sum_cons, List.length_cons] at h2 ⊢
    push_cast
    linarith

theorem send_loop_exited_nonpos (send : Nat → Int) (fd chunk : Int) :
    ∀ (fuel i : Nat) (bytes b : Int),
      (send_loop send fd chunk fuel i bytes).2 = .exited b → b ≤ 0 := by
  intro fuel
  induction fuel with
  | zero =>
    intro i bytes b h
    rw [send_loop_zero] at h
    by_cases hpos : bytes > 0
    · simp [hpos] at h
    · simp [hpos] at h
      omega
  | succ n ih =>
    intro i bytes b h
    by_cases hpos : bytes > 0
    · by_cases hr : send i < 0
      · rw [send_loop_fail send fd chunk n i bytes hpos hr] at h
        simp at h
      · rw [send_loop_step send fd chunk n i bytes hpos (not_lt.mp hr)] at h
        exact ih (i + 1) (bytes - send i) b h
    · rw [send_loop_done send fd chunk (n + 1) i bytes (by omega)] at h
      simp at h
      omega

theorem send_loop_len_le (send : Nat → Int) (fd chunk : Int) :
    ∀ (fuel i : Nat) (bytes : Int), ∀ c ∈ (send_loop send fd chunk fuel i bytes).1,
      c.len ≤ chunk := by
  intro fuel
  induction fuel with
  | zero => intro i bytes c hc; simp [send_loop_zero] at hc
  | succ n ih =>
    intro i bytes c hc
    by_cases hpos : bytes > 0
    · have hlen : (if bytes > chunk then chunk else bytes) ≤ chunk := by
        split_ifs <;> omega
      by_cases hr : send i < 0
      · rw [send_loop_fail send fd chunk n i bytes hpos hr] at hc
        rw [List.mem_singleton.mp hc]
        exact hlen
      · rw [send_loop_step send fd chunk n i bytes hpos (not_lt.mp hr)] at hc
        rcases List.mem_cons.mp hc with h | h
        · rw [h]; exact hlen
        · exact ih (i + 1) _ c h
    · rw [send_loop_done send fd chunk (n + 1) i bytes (by omega)] at hc
      simp at hc

/-- Progress of the send loop: when every call made transferred at least one
byte, an iteration bound of at least `bytes` is enough for the loop to exit,
and it makes at most `bytes` calls. -/
theorem send_loop_progress (send : Nat → Int) (fd chunk : Int) :
    ∀ (fuel i : Nat) (bytes : Int), bytes ≤ fuel →
      (∀ c ∈ (send_loop send fd chunk fuel i bytes).1, 1 ≤ c.ret) →
      (∃ b, (send_loop send fd chunk fuel i bytes).2 = .exited b) ∧
      ((send_loop send fd chunk fuel i bytes).1.length : Int) ≤ max bytes 0 := by
  intro fuel
  induction fuel with
  | zero =>
    intro i bytes hb _
    rw [send_loop_done send fd chunk 0 i bytes (by simpa using hb)]
    simp
  | succ n ih =>
    intro i bytes hb hc
    by_cases hpos : bytes > 0
    · by_cases hr : send i < 0
      · rw [send_loop_fail send fd chunk n i bytes hpos hr] at hc
        have := hc _ (List.mem_singleton.mpr rfl)
        simp only [Call.ret] at this
        omega
      · rw [send_loop_step send fd chunk n i bytes hpos (not_lt.mp hr)] at hc ⊢
        have hhead := hc _ (List.mem_cons_self _ _)
        simp only [Call.ret] at hhead
        have hb2 : bytes - send i ≤ (n : Int) := by push_cast at hb; omega
        obtain ⟨hex, hlen⟩ := ih (i + 1) (bytes - send i) hb2
          (fun c hmem => hc c (List.mem_cons_of_mem _ hmem))
        refine ⟨hex, ?_⟩
        simp only [List.length_cons]
        push_cast
        omega
    · rw [send_loop_done send fd chunk (n + 1) i bytes (by omega)]
      simp

/-- The send loop with every call returning `r`: the first `k` iterations, all
entered with `bytes > 0`, lower `bytes` by `k * r`. -/
theorem send_loop_const_split (fd chunk r : Int) (hr : 0 ≤ r) :
    ∀ (k f i : Nat) (bytes : Int), (k : Int) * r < bytes + r →
      (send_loop (fun _ => r) fd chunk (k + f) i bytes).2
        = (send_loop (fun _ => r) fd chunk f (i + k) (bytes - k * r)).2 := by
  intro k
  induction k with
  | zero => intro f i bytes _; simp
  | succ k ih =>
    intro f i bytes hk
    have hk0 : 0 ≤ (k : Int) * r := by positivity
    have hk1 : ((k + 1 : Nat) : Int) * r = (k : Int) * r + r := by push_cast; ring
    have hpos : 0 < bytes := by omega
    have e : k + 1 + f = (k + f) + 1 := by omega
    rw [e, send_loop_step _ fd chunk (k + f) i bytes hpos hr]
    have := ih f (i + 1) (bytes - r) (by omega)
    simp only [] at this ⊢
    rw [this]
    have e2 : i + 1 + k = i + (k + 1) := by omega
    have e3 : bytes - r - (k : Int) * r = bytes - ((k + 1 : Nat) : Int) * r := by omega
    rw [e2, e3]

/-- The calls of the send loop with every call returning one byte: each
returns 1 and asks for at least 1. -/
theorem send_loop_one_byte (fd chunk : Int) (hchunk : 1 ≤ chunk) :
    ∀ (fuel i : Nat) (bytes : Int), ∀ c ∈ (send_loop (fun _ => 1) fd chunk fuel i bytes).1,
      c.ret = 1 ∧ 1 ≤ c.len := by
  intro fuel
  induction fuel with
  | zero => intro i bytes c hc; simp [send_loop_zero] at hc
  | succ n ih =>
    intro i bytes c hc
    by_cases hpos : bytes > 0
    · rw [send_loop_step _ fd chunk n i bytes hpos (by norm_num)] at hc
      rcases List.mem_cons.mp hc with h | h
      · rw [h]
        simp only [Call.ret, Call.len, true_and]
        split_ifs <;> omega
      · exact ih (i + 1) _ c h
    · rw [send_loop_done _ fd chunk (n + 1) i bytes (by omega)] at hc
      simp at hc

theorem recv_loop_remaining (recv : Nat → Int) (fd chunk : Int) :
    ∀ (fuel i : Nat) (bytes b : Int),
      ((recv_loop recv fd chunk fuel i bytes).2 = .running b ∨
        (recv_loop recv fd chunk fuel i bytes).2 = .exited b) →
      b = bytes - transferred (recv_loop recv fd chunk fuel i bytes).1 := by
  intro fuel
  induction fuel with
  | zero =>
    intro i bytes b h
    rw [recv_loop_zero] at h ⊢
    by_cases hpos : bytes > 0 <;> simp [hpos, transferred] at h ⊢ <;> omega
  | succ n ih =>
    intro i bytes b h
    by_cases hpos : bytes > 0
    · by_cases hr : recv i < 0
      · rw [recv_loop_fail recv fd chunk n i bytes hpos hr] at h
        simp at h
      · rw [recv_loop_step recv fd chunk n i bytes hpos (not_lt.mp hr)] at h ⊢
        have := ih (i + 1) (bytes - recv i) b h
        simp only [transferred, List.map_cons, List.sum_cons, Call.ret] at this ⊢
        omega
    · rw [recv_loop_done recv fd chunk (n + 1) i bytes (by omega)] at h ⊢
      simp [transferred] at h ⊢
      omega

theorem recv_loop_exited_nonpos (recv : Nat → Int) (fd chunk : Int) :
    ∀ (fuel i : Nat) (bytes b : Int),
      (recv_loop recv fd chunk fuel i bytes).2 = .exited b → b ≤ 0 := by
  intro fuel
  induction fuel with
  | zero =>
    intro i bytes b h
    rw [recv_loop_zero] at h
    by_cases hpos : bytes > 0
    · simp [hpos] at h
    · simp [hpos] at h
      omega
  | succ n ih =>
    intro i bytes b h
    by_cases hpos : bytes > 0
    · by_cases hr : recv i < 0
      · rw [recv_loop_fail recv fd chunk n i bytes hpos hr] at h
        simp at h
      · rw [recv_loop_step recv fd chunk n i bytes hpos (not_lt.mp hr)] at h
        exact ih (i + 1) (bytes - recv i) b h
    · rw [recv_loop_done recv fd chunk (n + 1) i bytes (by omega)] at h
      simp at h
      omega

/-- Every call of the receive loop is a `recv` on the socket asking for one
whole buffer. -/
theorem recv_loop_shape (recv : Nat → Int) (fd chunk : Int) :
    ∀ (fuel i : Nat) (bytes : Int), ∀ c ∈ (recv_loop recv fd chunk fuel i bytes).1,
      ∃ j, c = .recv fd chunk (recv j) := by
  intro fuel
  induction fuel with
  | zero => intro i bytes c hc; simp [recv_loop_zero] at hc
  | succ n ih =>
    intro i bytes c hc
    by_cases hpos : bytes > 0
    · by_cases hr : recv i < 0
      · rw [recv_loop_fail recv fd chunk n i bytes hpos hr] at hc
        exact ⟨i, List.mem_singleton.mp hc⟩
      · rw [recv_loop_step recv fd chunk n i bytes hpos (not_lt.mp hr)] at hc
        rcases List.mem_cons.mp hc with h | h
        · exact ⟨i, h⟩
        · exact ih (i + 1) _ c h
    · rw [recv_loop_done recv fd chunk (n + 1) i bytes (by omega)] at hc
      simp at hc

/-- Progress of the receive loop: when every call made transferred at least one
byte, an iteration bound of at least `bytes` is enough for the loop to exit,
and it makes at most `bytes` calls. -/
theorem recv_loop_progress (recv : Nat → Int) (fd chunk : Int) :
    ∀ (fuel i : Nat) (bytes : Int), bytes ≤ fuel →
      (∀ c ∈ (recv_loop recv fd chunk fuel i bytes).1, 1 ≤ c.ret) →
      (∃ b, (recv_loop recv fd chunk fuel i bytes).2 = .exited b) ∧
      ((recv_loop recv fd chunk fuel i bytes).1.length : Int) ≤ max bytes 0 := by
  intro fuel
  induction fuel with
  | zero =>
    intro i bytes hb _
    rw [recv_loop_done recv fd chunk 0 i bytes (by simpa using hb)]
    simp
  | succ n ih =>
    intro i bytes hb hc
    by_cases hpos : bytes > 0
    · by_cases hr : recv i < 0
      · rw [recv_loop_fail recv fd chunk n i bytes hpos hr] at hc
        have := hc _ (List.mem_singleton.mpr rfl)
        simp only [Call.ret] at this
        omega
      · rw [recv_loop_step recv fd chunk n i bytes hpos (not_lt.mp hr)] at hc ⊢
        have hhead := hc _ (List.mem_cons_self _ _)
        simp only [Call.ret] at hhead
        have hb2 : bytes - recv i ≤ (n : Int) := by push_cast at hb; omega
        obtain ⟨hex, hlen⟩ := ih (i + 1) (bytes - recv i) hb2
          (fun c hmem => hc c (List.mem_cons_of_mem _ hmem))
        refine ⟨hex, ?_⟩
        simp only [List.length_cons]
        push_cast
        omega
    · rw [recv_loop_done recv fd chunk (n + 1) i bytes (by omega)]
      simp

/-- The receive loop with every call returning `r`: the first `k` iterations,
all entered with `bytes > 0`, lower `bytes` by `k * r`. -/
theorem recv_loop_const_split (fd chunk r : Int) (hr : 0 ≤ r) :
    ∀ (k f i : Nat) (bytes : Int), (k : Int) * r < bytes + r →
      (recv_loop (fun _ => r) fd chunk (k + f) i bytes).2
        = (recv_loop (fun _ => r) fd chunk f (i + k) (bytes - k * r)).2 := by
  intro k
  induction k with
  | zero => intro f i bytes _; simp
  | succ k ih =>
    intro f i bytes hk
    have hk0 : 0 ≤ (k : Int) * r := by positivity
    have hk1 : ((k + 1 : Nat) : Int) * r = (k : Int) * r + r := by push_cast; ring
    have hpos : 0 < bytes := by omega
    have e : k + 1 + f = (k + f) + 1 := by omega
    rw [e, recv_loop_step _ fd chunk (k + f) i bytes hpos hr]
    have := ih f (i + 1) (bytes - r) (by omega)
    simp only [] at this ⊢
    rw [this]
    have e2 : i + 1 + k = i + (k + 1) := by omega
    have e3 : bytes - r - (k : Int) * r = bytes - ((k + 1 : Nat) : Int) * r := by omega
    rw [e2, e3]

/-- When every call returns one whole buffer and `bytes` is `k` whole buffers,
the receive loop makes exactly `k` calls and exits with `bytes = 0`, for every
iteration bound of at least `k`. -/
theorem recv_loop_whole_chunks (recv : Nat → Int) (fd chunk : Int) (hchunk : 0 < chunk) :
    ∀ (k fuel i : Nat), k ≤ fuel →
      (∀ c ∈ (recv_loop recv fd chunk fuel i (k * chunk)).1, c.ret = chunk) →
      recv_loop recv fd chunk fuel i (k * chunk)
        = (List.replicate k (.recv fd chunk chunk), .exited 0) := by
  intro k
  induction k with
  | zero =>
    intro fuel i _ _
    simpa using recv_loop_done recv fd chunk fuel i 0 (le_refl 0)
  | succ k ih =>
    intro fuel i hk hc
    obtain ⟨n, rfl⟩ : ∃ n, fuel = n + 1 := ⟨fuel - 1, by omega⟩
    have hpos : 0 < ((k + 1 : Nat) : Int) * chunk := by positivity
    have hret : recv i = chunk := by
      by_cases hr : recv i < 0
      · rw [recv_loop_fail recv fd chunk n i _ hpos hr] at hc
        exact hc _ (List.mem_singleton.mpr rfl)
      · rw [recv_loop_step recv fd chunk n i _ hpos (not_lt.mp hr)] at hc
        exact hc _ (List.mem_cons_self _ _)
    have hr0 : 0 ≤ recv i := by omega
    have hnext : ((k + 1 : Nat) : Int) * chunk - recv i = (k : Int) * chunk := by
      rw [hret]; push_cast; ring
    rw [recv_loop_step recv fd chunk n i _ hpos hr0] at hc ⊢
    rw [hnext] at hc ⊢
    have htail : ∀ c ∈ (recv_loop recv fd chunk n (i + 1) (k * chunk)).1, c.ret = chunk :=
      fun c hmem => hc c (List.mem_cons_of_mem _ hmem)
    rw [ih n (i + 1) (by omega) htail, hret]
    simp [List.replicate_succ]

/-- The send loop of `start_server` when every call transfers what it asked
for. -/
theorem send_whole_transfer (send : Nat → Int) (client_fd : Int) (fuel : Nat)
    (hfuel : 262144 ≤ fuel)
    (hfull : ∀ c ∈ (send_loop send client_fd BUF_SIZE fuel 0 TRANSFER_SIZE).1, c.ret = c.len) :
    send_loop send client_fd BUF_SIZE fuel 0 TRANSFER_SIZE
      = (List.replicate 262144 (.send client_fd BUF_SIZE BUF_SIZE), .exited 0) := by
  rw [transfer_size_chunks] at hfull ⊢
  exact send_loop_whole_chunks send client_fd BUF_SIZE (by norm_num [BUF_SIZE])
    262144 fuel 0 hfuel hfull

/-- The receive loop of `start_client` when every call fills the buffer. -/
theorem recv_whole_transfer (recv : Nat → Int) (sockfd : Int) (fuel : Nat)
    (hfuel : 262144 ≤ fuel)
    (hfull : ∀ c ∈ (recv_loop recv sockfd BUF_SIZE fuel 0 TRANSFER_SIZE).1, c.ret = BUF_SIZE) :
    recv_loop recv sockfd BUF_SIZE fuel 0 TRANSFER_SIZE
      = (List.replicate 262144 (.recv sockfd BUF_SIZE BUF_SIZE), .exited 0) := by
  rw [transfer_size_chunks] at hfull ⊢
  exact recv_loop_whole_chunks recv sockfd BUF_SIZE (by norm_num [BUF_SIZE])
    262144 fuel 0 hfuel hfull

/-! ## Failures inside the loops and the effect of the loops on the world -/

theorem World.calls_ops (cs : List Call) : ∀ w : World, (w.calls cs).ops = w.ops ++ cs := by
  induction cs with
  | nil => intro w; simp [World.calls]
  | cons c cs ih =>
    intro w
    have := ih (w.call c)
    simp only [World.calls, List.foldl_cons] at this ⊢
    rw [this]
    simp [World.call]

theorem World.calls_out (cs : List Call) : ∀ w : World, (w.calls cs).out = w.out := by
  induction cs with
  | nil => intro w; simp [World.calls]
  | cons c cs ih =>
    intro w
    have := ih (w.call c)
    simp only [World.calls, List.foldl_cons] at this ⊢
    rw [this]
    simp [World.call]

/-- Calls that are neither `socket`, `accept` nor `close` leave the open
handles as they are. -/
theorem World.calls_fds (cs : List Call) :
    ∀ w : World, (∀ c ∈ cs, ∀ fds, c.effect fds = fds) → (w.calls cs).fds = w.fds := by
  induction cs with
  | nil => intro w _; simp [World.calls]
  | cons c cs ih =>
    intro w h
    have := ih (w.call c) (fun d hd => h d (List.mem_cons_of_mem _ hd))
    simp only [World.calls, List.foldl_cons] at this ⊢
    rw [this]
    simp [World.call, h c (List.mem_cons_self _ _)]

/-- Every call of the send loop is a `send` on the accepted connection. -/
theorem send_loop_shape (send : Nat → Int) (fd chunk : Int) :
    ∀ (fuel i : Nat) (bytes : Int), ∀ c ∈ (send_loop send fd chunk fuel i bytes).1,
      ∃ len j, c = .send fd len (send j) := by
  intro fuel
  induction fuel with
  | zero => intro i bytes c hc; simp [send_loop_zero] at hc
  | succ n ih =>
    intro i bytes c hc
    by_cases hpos : bytes > 0
    · by_cases hr : send i < 0
      · rw [send_loop_fail send fd chunk n i bytes hpos hr] at hc
        exact ⟨_, i, List.mem_singleton.mp hc⟩
      · rw [send_loop_step send fd chunk n i bytes hpos (not_lt.mp hr)] at hc
        rcases List.mem_cons.mp hc with h | h
        · exact ⟨_, i, h⟩
        · exact ih (i + 1) _ c h
    · rw [send_loop_done send fd chunk (n + 1) i bytes (by omega)] at hc
      simp at hc

/-- The send loop stops as `failed` exactly at the first call that fails: that
call is the last one made; otherwise no call failed. -/
theorem send_loop_failures (send : Nat → Int) (fd chunk : Int) :
    ∀ (fuel i : Nat) (bytes : Int),
      ((send_loop send fd chunk fuel i bytes).2 = .failed →
        ∃ pre len ret, (send_loop send fd chunk fuel i bytes).1 = pre ++ [.send fd len ret] ∧
          ret < 0 ∧ ∀ d ∈ pre, d.failed = false) ∧
      ((send_loop send fd chunk fuel i bytes).2 ≠ .failed →
        ∀ d ∈ (send_loop send fd chunk fuel i bytes).1, d.failed = false) := by
  intro fuel
  induction fuel with
  | zero =>
    intro i bytes
    rw [send_loop_zero]
    by_cases hpos : bytes > 0 <;> simp [hpos]
  | succ n ih =>
    intro i bytes
    by_cases hpos : bytes > 0
    · by_cases hr : send i < 0
      · rw [send_loop_fail send fd chunk n i bytes hpos hr]
        exact ⟨fun _ => ⟨[], _, send i, rfl, hr, by simp⟩, fun h => absurd rfl h⟩
      · rw [send_loop_step send fd chunk n i bytes hpos (not_lt.mp hr)]
        obtain ⟨ih1, ih2⟩ := ih (i + 1) (bytes - send i)
        constructor
        · intro h
          obtain ⟨pre, len, ret, hpre, hret, hall⟩ := ih1 h
          refine ⟨.send fd (if bytes > chunk then chunk else bytes) (send i) :: pre, len, ret,
            by simp [hpre], hret, ?_⟩
          intro d hd
          rcases List.mem_cons.mp hd with h1 | h1
          · rw [h1]; simp [Call.failed, not_lt.mp hr]
          · exact hall d h1
        · intro h d hd
          rcases List.mem_cons.mp hd with h1 | h1
          · rw [h1]; simp [Call.failed, not_lt.mp hr]
          · exact ih2 h d h1
    · rw [send_loop_done send fd chunk (n + 1) i bytes (by omega)]
      simp

/-- The receive loop stops as `failed` exactly at the first call that fails:
that call is the last one made; otherwise no call failed. -/
theorem recv_loop_failures (recv : Nat → Int) (fd chunk : Int) :
    ∀ (fuel i : Nat) (bytes : Int),
      ((recv_loop recv fd chunk fuel i bytes).2 = .failed →
        ∃ pre ret, (recv_loop recv fd chunk fuel i bytes).1 = pre ++ [.recv fd chunk ret] ∧
          ret < 0 ∧ ∀ d ∈ pre, d.failed = false) ∧
      ((recv_loop recv fd chunk fuel i bytes).2 ≠ .failed →
        ∀ d ∈ (recv_loop recv fd chunk fuel i bytes).1, d.failed = false) := by
  intro fuel
  induction fuel with
  | zero =>
    intro i bytes
    rw [recv_loop_zero]
    by_cases hpos : bytes > 0 <;> simp [hpos]
  | succ n ih =>
    intro i bytes
    by_cases hpos : bytes > 0
    · by_cases hr : recv i < 0
      · rw [recv_loop_fail recv fd chunk n i bytes hpos hr]
        exact ⟨fun _ => ⟨[], recv i, rfl, hr, by simp⟩, fun h => absurd rfl h⟩
      · rw [recv_loop_step recv fd chunk n i bytes hpos (not_lt.mp hr)]
        obtain ⟨ih1, ih2⟩ := ih (i + 1) (bytes - recv i)
        constructor
        · intro h
          obtain ⟨pre, ret, hpre, hret, hall⟩ := ih1 h
          refine ⟨.recv fd chunk (recv i) :: pre, ret, by simp [hpre], hret, ?_⟩
          intro d hd
          rcases List.mem_cons.mp hd with h1 | h1
          · rw [h1]; simp [Call.failed, not_lt.mp hr]
          · exact hall d h1
        · intro h d hd
          rcases List.mem_cons.mp hd with h1 | h1
          · rw [h1]; simp [Call.failed, not_lt.mp hr]
          · exact ih2 h d h1
    · rw [recv_loop_done recv fd chunk (n + 1) i bytes (by omega)]
      simp

/-! ## Claims about the send loop -/

/-- C1: in the send loop of `start_server`, started with
`bytes = TRANSFER_SIZE` and stopped after any number `fuel` of iterations, if
every `send` call made returned a value between 0 and the size it asked for,
then no call was taken as an error, the current value of `bytes` is
`TRANSFER_SIZE` less the sum of the results so far (each iteration lowers it by
exactly its result), and if the loop has exited then `bytes = 0` and the results
add up to exactly `TRANSFER_SIZE`. -/
theorem send_loop_exact_total (send : Nat → Int) (client_fd : Int) (fuel : Nat)
    (h : ∀ c ∈ (send_loop send client_fd BUF_SIZE fuel 0 TRANSFER_SIZE).1,
      0 ≤ c.ret ∧ c.ret ≤ c.len) :
    (send_loop send client_fd BUF_SIZE fuel 0 TRANSFER_SIZE).2 ≠ .failed ∧
    (∀ b, ((send_loop send client_fd BUF_SIZE fuel 0 TRANSFER_SIZE).2 = .running b ∨
          (send_loop send client_fd BUF_SIZE fuel 0 TRANSFER_SIZE).2 = .exited b) →
        b = TRANSFER_SIZE - transferred (send_loop send client_fd BUF_SIZE fuel 0 TRANSFER_SIZE).1) ∧
    (∀ b, (send_loop send client_fd BUF_SIZE fuel 0 TRANSFER_SIZE).2 = .exited b →
        b = 0 ∧ transferred (send_loop send client_fd BUF_SIZE fuel 0 TRANSFER_SIZE).1
          = TRANSFER_SIZE) := by
  have hacc := send_loop_account send client_fd BUF_SIZE fuel 0 TRANSFER_SIZE
    (by norm_num [TRANSFER_SIZE]) h
  exact ⟨hacc.1, send_loop_remaining send client_fd BUF_SIZE fuel 0 TRANSFER_SIZE, hacc.2⟩

/-- C8: when every `send` call transfers the full amount it asked for, the send
loop of `start_server` (chunk `sizeof(buf) = 4096`, total `TRANSFER_SIZE`) makes
exactly 262144 calls, each asking for 4096 bytes, and exits with `bytes = 0`; the
same loop with chunk 256 and total 1024 makes exactly 4 calls of 256 bytes and
exits with `bytes = 0`. -/
theorem send_loop_full_transfer (send : Nat → Int) (client_fd : Int) (fuel : Nat) :
    (262144 ≤ fuel →
      (∀ c ∈ (send_loop send client_fd BUF_SIZE fuel 0 TRANSFER_SIZE).1, c.ret = c.len) →
      send_loop send client_fd BUF_SIZE fuel 0 TRANSFER_SIZE
        = (List.replicate 262144 (.send client_fd 4096 4096), .exited 0)) ∧
    (4 ≤ fuel →
      (∀ c ∈ (send_loop send client_fd 256 fuel 0 1024).1, c.ret = c.len) →
      send_loop send client_fd 256 fuel 0 1024
        = (List.replicate 4 (.send client_fd 256 256), .exited 0)) := by
  constructor
  · intro hfuel hfull
    exact send_whole_transfer send client_fd fuel hfuel hfull
  · intro hfuel hfull
    have e : (1024 : Int) = ((4 : Nat) : Int) * 256 := by norm_num
    rw [e] at hfull ⊢
    exact send_loop_whole_chunks send client_fd 256 (by norm_num) 4 fuel 0 hfuel hfull

/-- Witness for C1: every `send` call transfers 4096 bytes; the loop exits
after 262144 calls having sent exactly `TRANSFER_SIZE` bytes. -/
theorem send_loop_exact_total_witness :
    (∀ c ∈ (send_loop (fun _ => 4096) 4 BUF_SIZE 262144 0 TRANSFER_SIZE).1,
      0 ≤ c.ret ∧ c.ret ≤ c.len) ∧
    (send_loop (fun _ => 4096) 4 BUF_SIZE 262144 0 TRANSFER_SIZE).2 = .exited 0 ∧
    transferred (send_loop (fun _ => 4096) 4 BUF_SIZE 262144 0 TRANSFER_SIZE).1
      = TRANSFER_SIZE := by
  have hcalls : ∀ c ∈ (send_loop (fun _ => 4096) 4 BUF_SIZE 262144 0 TRANSFER_SIZE).1,
      c = .send 4 BUF_SIZE BUF_SIZE := by
    rw [transfer_size_chunks]
    exact send_loop_const_chunk 4 BUF_SIZE (by norm_num [BUF_SIZE]) 262144 262144 0
  have hyp : ∀ c ∈ (send_loop (fun _ => 4096) 4 BUF_SIZE 262144 0 TRANSFER_SIZE).1,
      0 ≤ c.ret ∧ c.ret ≤ c.len := by
    intro c hc
    rw [hcalls c hc]
    norm_num [Call.ret, Call.len, BUF_SIZE]
  have hexit : (send_loop (fun _ => 4096) 4 BUF_SIZE 262144 0 TRANSFER_SIZE).2 = .exited 0 := by
    have hfull : ∀ c ∈ (send_loop (fun _ => 4096) 4 BUF_SIZE 262144 0 TRANSFER_SIZE).1,
        c.ret = c.len := by
      intro c hc
      rw [hcalls c hc]
      rfl
    rw [(send_whole_transfer (fun _ => 4096) 4 262144 (le_refl _) hfull)]
  exact ⟨hyp, hexit, ((send_loop_exact_total (fun _ => 4096) 4 262144 hyp).2.2 0 hexit).2⟩

/-- Witness for C8: a peer that takes 4096 bytes per call for the built-in
constants, and one that takes 256 bytes per call for total 1024, chunk 256. -/
theorem send_loop_full_transfer_witness :
    ((262144 ≤ 262144 ∧
      ∀ c ∈ (send_loop (fun _ => 4096) 4 BUF_SIZE 262144 0 TRANSFER_SIZE).1, c.ret = c.len) ∧
      send_loop (fun _ => 4096) 4 BUF_SIZE 262144 0 TRANSFER_SIZE
        = (List.replicate 262144 (.send 4 4096 4096), .exited 0)) ∧
    ((4 ≤ 4 ∧ ∀ c ∈ (send_loop (fun _ => 256) 4 256 4 0 1024).1, c.ret = c.len) ∧
      send_loop (fun _ => 256) 4 256 4 0 1024
        = (List.replicate 4 (.send 4 256 256), .exited 0)) := by
  have h1 : ∀ c ∈ (send_loop (fun _ => 4096) 4 BUF_SIZE 262144 0 TRANSFER_SIZE).1,
      c.ret = c.len := by
    intro c hc
    rw [transfer_size_chunks] at hc
    rw [send_loop_const_chunk 4 BUF_SIZE (by norm_num [BUF_SIZE]) 262144 262144 0 c hc]
    rfl
  have h2 : ∀ c ∈ (send_loop (fun _ => 256) 4 256 4 0 1024).1, c.ret = c.len := by
    decide
  exact ⟨⟨⟨le_refl _, h1⟩, (send_loop_full_transfer (fun _ => 4096) 4 262144).1 (le_refl _) h1⟩,
    ⟨⟨le_refl _, h2⟩, (send_loop_full_transfer (fun _ => 256) 4 4).2 (le_refl _) h2⟩⟩

/-! ## Claims about the receive loop and about termination -/

/-- C2: a run of the receive loop of `start_client` in which every `recv` call
returns 4095 bytes (a value between 0 and the buffer size): after 262208 calls
64 bytes remain, the next call asks for 4096 bytes again and its result takes
`bytes` to -4031, with which the loop exits. -/
theorem recv_loop_overrun :
    (∀ c ∈ (recv_loop (fun _ => 4095) 3 BUF_SIZE 262209 0 TRANSFER_SIZE).1,
      c.len = 4096 ∧ 0 ≤ c.ret ∧ c.ret ≤ 4096) ∧
    (recv_loop (fun _ => 4095) 3 BUF_SIZE 262208 0 TRANSFER_SIZE).2 = .running 64 ∧
    (recv_loop (fun _ => 4095) 3 BUF_SIZE 262209 0 TRANSFER_SIZE).2 = .exited (-4031) := by
  refine ⟨?_, ?_, ?_⟩
  · intro c hc
    obtain ⟨j, hj⟩ := recv_loop_shape _ 3 BUF_SIZE 262209 0 TRANSFER_SIZE c hc
    rw [hj]
    norm_num [Call.ret, Call.len, BUF_SIZE]
  · have h := recv_loop_const_split 3 BUF_SIZE 4095 (by norm_num) 262208 0 0 TRANSFER_SIZE
      (by norm_num [TRANSFER_SIZE])
    rw [Nat.add_zero] at h
    rw [h, recv_loop_zero]
    norm_num [TRANSFER_SIZE]
  · have h := recv_loop_const_split 3 BUF_SIZE 4095 (by norm_num) 262209 0 0 TRANSFER_SIZE
      (by norm_num [TRANSFER_SIZE])
    rw [Nat.add_zero] at h
    rw [h, recv_loop_zero]
    norm_num [TRANSFER_SIZE]

/-- C3, counterexample: when every `send` call and every `recv` call transfers
one byte (a non-negative result within the requested size), both loops are
still iterating after 262144 calls, with 1073479680 bytes left. -/
theorem loops_exceed_chunk_bound :
    (∀ c ∈ (send_loop (fun _ => 1) 4 BUF_SIZE 262144 0 TRANSFER_SIZE).1,
      0 ≤ c.ret ∧ c.ret ≤ c.len) ∧
    (send_loop (fun _ => 1) 4 BUF_SIZE 262144 0 TRANSFER_SIZE).2 = .running 1073479680 ∧
    (∀ c ∈ (recv_loop (fun _ => 1) 3 BUF_SIZE 262144 0 TRANSFER_SIZE).1,
      0 ≤ c.ret ∧ c.ret ≤ 4096) ∧
    (recv_loop (fun _ => 1) 3 BUF_SIZE 262144 0 TRANSFER_SIZE).2 = .running 1073479680 := by
  refine ⟨?_, ?_, ?_, ?_⟩
  · intro c hc
    have := send_loop_one_byte 4 BUF_SIZE (by norm_num [BUF_SIZE]) 262144 0 TRANSFER_SIZE c hc
    omega
  · have h := send_loop_const_split 4 BUF_SIZE 1 (by norm_num) 262144 0 0 TRANSFER_SIZE
      (by norm_num [TRANSFER_SIZE])
    rw [Nat.add_zero] at h
    rw [h, send_loop_zero]
    norm_num [TRANSFER_SIZE]
  · intro c hc
    obtain ⟨j, hj⟩ := recv_loop_shape _ 3 BUF_SIZE 262144 0 TRANSFER_SIZE c hc
    rw [hj]
    norm_num [Call.ret]
  · have h := recv_loop_const_split 3 BUF_SIZE 1 (by norm_num) 262144 0 0 TRANSFER_SIZE
      (by norm_num [TRANSFER_SIZE])
    rw [Nat.add_zero] at h
    rw [h, recv_loop_zero]
    norm_num [TRANSFER_SIZE]

/-- C3, amended: when every call made transfers at least one byte (and at most
the size asked for, which for `recv` is 4096), an iteration bound of
`TRANSFER_SIZE = 1073741824` is enough for the send loop of `start_server` and
the receive loop of `start_client` to exit; each makes at least 262144 and at
most 1073741824 calls, and exactly 262144 when every call transfers 4096
bytes. -/
theorem loops_terminate (send recv : Nat → Int) (client_fd sockfd : Int) (fuel : Nat)
    (hfuel : 1073741824 ≤ fuel)
    (hsend : ∀ c ∈ (send_loop send client_fd BUF_SIZE fuel 0 TRANSFER_SIZE).1,
      1 ≤ c.ret ∧ c.ret ≤ c.len)
    (hrecv : ∀ c ∈ (recv_loop recv sockfd BUF_SIZE fuel 0 TRANSFER_SIZE).1,
      1 ≤ c.ret ∧ c.ret ≤ 4096) :
    ((send_loop send client_fd BUF_SIZE fuel 0 TRANSFER_SIZE).2 = .exited 0 ∧
      262144 ≤ (send_loop send client_fd BUF_SIZE fuel 0 TRANSFER_SIZE).1.length ∧
      (send_loop send client_fd BUF_SIZE fuel 0 TRANSFER_SIZE).1.length ≤ 1073741824 ∧
      ((∀ c ∈ (send_loop send client_fd BUF_SIZE fuel 0 TRANSFER_SIZE).1, c.ret = 4096) →
        (send_loop send client_fd BUF_SIZE fuel 0 TRANSFER_SIZE).1.length = 262144)) ∧
    ((∃ b, (recv_loop recv sockfd BUF_SIZE fuel 0 TRANSFER_SIZE).2 = .exited b) ∧
      262144 ≤ (recv_loop recv sockfd BUF_SIZE fuel 0 TRANSFER_SIZE).1.length ∧
      (recv_loop recv sockfd BUF_SIZE fuel 0 TRANSFER_SIZE).1.length ≤ 1073741824 ∧
      ((∀ c ∈ (recv_loop recv sockfd BUF_SIZE fuel 0 TRANSFER_SIZE).1, c.ret = 4096) →
        (recv_loop recv sockfd BUF_SIZE fuel 0 TRANSFER_SIZE).1.length = 262144)) := by
  have hT : TRANSFER_SIZE = 1073741824 := by norm_num [TRANSFER_SIZE]
  have hB : BUF_SIZE = 4096 := rfl
  have hfuelZ : TRANSFER_SIZE ≤ (fuel : Int) := by omega
  have hmax : max TRANSFER_SIZE 0 = 1073741824 := by rw [hT]; norm_num
  have hfuel2 : 262144 ≤ fuel := by omega
  constructor
  · obtain ⟨⟨b, hb⟩, hlen⟩ := send_loop_progress send client_fd BUF_SIZE fuel 0 TRANSFER_SIZE
      hfuelZ (fun c hc => (hsend c hc).1)
    obtain ⟨hb0, hsum⟩ := (send_loop_account send client_fd BUF_SIZE fuel 0 TRANSFER_SIZE
      (by omega) (fun c hc => ⟨by have := (hsend c hc).1; omega, (hsend c hc).2⟩)).2 b hb
    have hle := transferred_le 4096 _ (fun c hc => le_trans (hsend c hc).2
      (hB ▸ send_loop_len_le send client_fd BUF_SIZE fuel 0 TRANSFER_SIZE c hc))
    rw [hmax] at hlen
    refine ⟨by rw [hb, hb0], by omega, by omega, fun hall => ?_⟩
    have hfull : ∀ c ∈ (send_loop send client_fd BUF_SIZE fuel 0 TRANSFER_SIZE).1,
        c.ret = c.len := by
      intro c hc
      have h1 := hall c hc
      have h2 := (hsend c hc).2
      have h3 := send_loop_len_le send client_fd BUF_SIZE fuel 0 TRANSFER_SIZE c hc
      omega
    rw [send_whole_transfer send client_fd fuel hfuel2 hfull]
    exact List.length_replicate _ _
  · obtain ⟨⟨b, hb⟩, hlen⟩ := recv_loop_progress recv sockfd BUF_SIZE fuel 0 TRANSFER_SIZE
      hfuelZ (fun c hc => (hrecv c hc).1)
    have hb0 := recv_loop_exited_nonpos recv sockfd BUF_SIZE fuel 0 TRANSFER_SIZE b hb
    have hrem := recv_loop_remaining recv sockfd BUF_SIZE fuel 0 TRANSFER_SIZE b (Or.inr hb)
    have hle := transferred_le 4096 _ (fun c hc => (hrecv c hc).2)
    rw [hmax] at hlen
    refine ⟨⟨b, hb⟩, by omega, by omega, fun hall => ?_⟩
    rw [recv_whole_transfer recv sockfd fuel hfuel2 hall]
    exact List.length_replicate _ _

/-- Witness for C3 (amended): both peers move 4096 bytes per call. -/
theorem loops_terminate_witness :
    (1073741824 ≤ 1073741824 ∧
      (∀ c ∈ (send_loop (fun _ => 4096) 4 BUF_SIZE 1073741824 0 TRANSFER_SIZE).1,
        1 ≤ c.ret ∧ c.ret ≤ c.len) ∧
      (∀ c ∈ (recv_loop (fun _ => 4096) 3 BUF_SIZE 1073741824 0 TRANSFER_SIZE).1,
        1 ≤ c.ret ∧ c.ret ≤ 4096)) ∧
    (send_loop (fun _ => 4096) 4 BUF_SIZE 1073741824 0 TRANSFER_SIZE).2 = .exited 0 ∧
    (send_loop (fun _ => 4096) 4 BUF_SIZE 1073741824 0 TRANSFER_SIZE).1.length = 262144 ∧
    (recv_loop (fun _ => 4096) 3 BUF_SIZE 1073741824 0 TRANSFER_SIZE).1.length = 262144 := by
  have hs : ∀ c ∈ (send_loop (fun _ => 4096) 4 BUF_SIZE 1073741824 0 TRANSFER_SIZE).1,
      c = .send 4 BUF_SIZE BUF_SIZE := by
    rw [transfer_size_chunks]
    exact send_loop_const_chunk 4 BUF_SIZE (by norm_num [BUF_SIZE]) 1073741824 262144 0
  have hsend : ∀ c ∈ (send_loop (fun _ => 4096) 4 BUF_SIZE 1073741824 0 TRANSFER_SIZE).1,
      1 ≤ c.ret ∧ c.ret ≤ c.len := by
    intro c hc
    rw [hs c hc]
    norm_num [Call.ret, Call.len, BUF_SIZE]
  have hr : ∀ c ∈ (recv_loop (fun _ => 4096) 3 BUF_SIZE 1073741824 0 TRANSFER_SIZE).1,
      c.ret = 4096 := by
    intro c hc
    obtain ⟨j, hj⟩ := recv_loop_shape _ 3 BUF_SIZE 1073741824 0 TRANSFER_SIZE c hc
    rw [hj]
    rfl
  have hrecv : ∀ c ∈ (recv_loop (fun _ => 4096) 3 BUF_SIZE 1073741824 0 TRANSFER_SIZE).1,
      1 ≤ c.ret ∧ c.ret ≤ 4096 := by
    intro c hc
    rw [hr c hc]
    norm_num
  have h := loops_terminate (fun _ => 4096) (fun _ => 4096) 4 3 1073741824 (le_refl _)
    hsend hrecv
  refine ⟨⟨le_refl _, hsend, hrecv⟩, h.1.1, h.1.2.2.2 ?_, h.2.2.2.2 hr⟩
  intro c hc
  rw [hs c hc]
  rfl

/-! ## The roles, case by case -/

theorem World.entry_ops (fds : List Int) : (World.entry fds).ops = [] := rfl

theorem World.entry_out (fds : List Int) : (World.entry fds).out = [] := rfl

theorem World.entry_fds (fds : List Int) : (World.entry fds).fds = fds := rfl

theorem World.calls_eq (w : World) (cs : List Call) :
    w.calls cs = ⟨w.ops ++ cs, w.out, (w.calls cs).fds⟩ := by
  have h1 := World.calls_ops cs w
  have h2 := World.calls_out cs w
  cases h : w.calls cs with
  | mk o p f =>
    rw [h] at h1 h2
    simp only at h1 h2
    simp [h1, h2]

theorem World.calls_send_loop (w : World) (send : Nat → Int) (fd chunk : Int) (fuel i : Nat)
    (bytes : Int) :
    w.calls (send_loop send fd chunk fuel i bytes).1
      = ⟨w.ops ++ (send_loop send fd chunk fuel i bytes).1, w.out, w.fds⟩ := by
  rw [World.calls_eq, World.calls_fds]
  intro c hc fds
  obtain ⟨len, j, hj⟩ := send_loop_shape send fd chunk fuel i bytes c hc
  rw [hj]
  rfl

theorem World.calls_recv_loop (w : World) (recv : Nat → Int) (fd chunk : Int) (fuel i : Nat)
    (bytes : Int) :
    w.calls (recv_loop recv fd chunk fuel i bytes).1
      = ⟨w.ops ++ (recv_loop recv fd chunk fuel i bytes).1, w.out, w.fds⟩ := by
  rw [World.calls_eq, World.calls_fds]
  intro c hc fds
  obtain ⟨j, hj⟩ := recv_loop_shape recv fd chunk fuel i bytes c hc
  rw [hj]
  rfl

/-- The run of `start_server` when its setup succeeds and a `send` fails. -/
theorem start_server_failed (env : ServerEnv) (fuel : Nat) (w : World) (hs : env.setup_ok)
    (hl : (send_loop env.send env.accept BUF_SIZE fuel 0 TRANSFER_SIZE).2 = .failed) :
    start_server env fuel w
      = (⟨w.ops ++ env.setup_calls
            ++ (send_loop env.send env.accept BUF_SIZE fuel 0 TRANSFER_SIZE).1,
          w.out ++ [.perror "send"], env.accept :: env.socket :: w.fds⟩, some (-1)) := by
  obtain ⟨h1, h2, h3, h4, h5, h6⟩ := hs
  simp [start_server, not_lt.mpr h1, h2, h3, h4, h5, not_lt.mpr h6, hl, World.calls_send_loop,
    World.call, World.print, Call.effect, ServerEnv.setup_calls]

/-- The run of `start_server` when its setup succeeds and the send loop is still
iterating. -/
theorem start_server_running (env : ServerEnv) (fuel : Nat) (w : World) (hs : env.setup_ok)
    (b : Int)
    (hl : (send_loop env.send env.accept BUF_SIZE fuel 0 TRANSFER_SIZE).2 = .running b) :
    start_server env fuel w
      = (⟨w.ops ++ env.setup_calls
            ++ (send_loop env.send env.accept BUF_SIZE fuel 0 TRANSFER_SIZE).1,
          w.out, env.accept :: env.socket :: w.fds⟩, none) := by
  obtain ⟨h1, h2, h3, h4, h5, h6⟩ := hs
  simp [start_server, not_lt.mpr h1, h2, h3, h4, h5, not_lt.mpr h6, hl, World.calls_send_loop,
    World.call, World.print, Call.effect, ServerEnv.setup_calls]

/-- The run of `start_server` when its setup succeeds and the send loop exits. -/
theorem start_server_exited (env : ServerEnv) (fuel : Nat) (w : World) (hs : env.setup_ok)
    (b : Int)
    (hl : (send_loop env.send env.accept BUF_SIZE fuel 0 TRANSFER_SIZE).2 = .exited b) :
    start_server env fuel w
      = (⟨w.ops ++ env.setup_calls
            ++ (send_loop env.send env.accept BUF_SIZE fuel 0 TRANSFER_SIZE).1
            ++ [.close env.accept, .close env.socket],
          w.out ++ [.printf "[send]" env.elapsed],
          ((env.accept :: env.socket :: w.fds).erase env.accept).erase env.socket⟩,
        some 0) := by
  obtain ⟨h1, h2, h3, h4, h5, h6⟩ := hs
  simp [start_server, not_lt.mpr h1, h2, h3, h4, h5, not_lt.mpr h6, hl, World.calls_send_loop,
    World.call, World.print, Call.effect, ServerEnv.setup_calls, ServerEnv.elapsed]

/-- The run of `start_server` when one of the six calls before the loop fails:
that call is the last one made, one diagnostic names it and the value is -1. -/
theorem start_server_setup_failed (env : ServerEnv) (fuel : Nat) (w : World)
    (hs : ¬ env.setup_ok) :
    ∃ pre c fds1, start_server env fuel w
        = (⟨w.ops ++ pre ++ [c], w.out ++ [.perror c.name], fds1⟩, some (-1)) ∧
      c.failed = true ∧ (∀ d ∈ pre, d.failed = false) ∧
      (fds1 = w.fds ∨ fds1 = env.socket :: w.fds) := by
  by_cases h1 : env.socket < 0
  · exact ⟨[], .socket env.socket, w.fds,
      by simp [start_server, h1, World.call, World.print, Call.name, Call.effect],
      by simp [Call.failed, h1], by simp, Or.inl rfl⟩
  by_cases h2 : env.inet_pton = 1
  swap
  · exact ⟨[.socket env.socket], .inet_pton env.inet_pton, env.socket :: w.fds,
      by simp [start_server, h1, h2, World.call, World.print, Call.name, Call.effect],
      by simp [Call.failed, h2], by simp [Call.failed, h1], Or.inr rfl⟩
  by_cases h3 : env.setsockopt = 0
  swap
  · exact ⟨[.socket env.socket, .inet_pton env.inet_pton],
      .setsockopt env.socket env.setsockopt, env.socket :: w.fds,
      by simp [start_server, h1, h2, h3, World.call, World.print, Call.name, Call.effect],
      by simp [Call.failed, h3], by simp [Call.failed, h1, h2], Or.inr rfl⟩
  by_cases h4 : env.bind = 0
  swap
  · exact ⟨[.socket env.socket, .inet_pton env.inet_pton,
        .setsockopt env.socket env.setsockopt],
      .bind env.socket env.bind, env.socket :: w.fds,
      by simp [start_server, h1, h2, h3, h4, World.call, World.print, Call.name, Call.effect],
      by simp [Call.failed, h4], by simp [Call.failed, h1, h2, h3], Or.inr rfl⟩
  by_cases h5 : env.listen = 0
  swap
  · exact ⟨[.socket env.socket, .inet_pton env.inet_pton,
        .setsockopt env.socket env.setsockopt, .bind env.socket env.bind],
      .listen env.socket env.listen, env.socket :: w.fds,
      by simp [start_server, h1, h2, h3, h4, h5, World.call, World.print, Call.name,
        Call.effect],
      by simp [Call.failed, h5], by simp [Call.failed, h1, h2, h3, h4], Or.inr rfl⟩
  by_cases h6 : env.accept < 0
  · exact ⟨[.socket env.socket, .inet_pton env.inet_pton,
        .setsockopt env.socket env.setsockopt, .bind env.socket env.bind,
        .listen env.socket env.listen],
      .accept env.socket env.accept, env.socket :: w.fds,
      by simp [start_server, h1, h2, h3, h4, h5, h6, World.call, World.print, Call.name,
        Call.effect],
      by simp [Call.failed, h6], by simp [Call.failed, h1, h2, h3, h4, h5], Or.inr rfl⟩
  exact absurd ⟨not_lt.mp h1, h2, h3, h4, h5, not_lt.mp h6⟩ hs

theorem server_setup_calls_ok (env : ServerEnv) (hs : env.setup_ok) :
    ∀ d ∈ env.setup_calls, d.failed = false := by
  obtain ⟨h1, h2, h3, h4, h5, h6⟩ := hs
  simp [ServerEnv.setup_calls, Call.failed, h1, h2, h3, h4, h5, h6]

/-- The run of `start_client` when its setup succeeds and a `recv` fails. -/
theorem start_client_failed (env : ClientEnv) (fuel : Nat) (w : World) (hs : env.setup_ok)
    (hl : (recv_loop env.recv env.socket BUF_SIZE fuel 0 TRANSFER_SIZE).2 = .failed) :
    start_client env fuel w
      = (⟨w.ops ++ env.setup_calls
            ++ (recv_loop env.recv env.socket BUF_SIZE fuel 0 TRANSFER_SIZE).1,
          w.out ++ [.perror "recv"], env.socket :: w.fds⟩, some (-1)) := by
  obtain ⟨h1, h2, h3⟩ := hs
  simp [start_client, not_lt.mpr h1, h2, h3, hl, World.calls_recv_loop,
    World.call, World.print, Call.effect, ClientEnv.setup_calls]

/-- The run of `start_client` when its setup succeeds and the receive loop is
still iterating. -/
theorem start_client_running (env : ClientEnv) (fuel : Nat) (w : World) (hs : env.setup_ok)
    (b : Int)
    (hl : (recv_loop env.recv env.socket BUF_SIZE fuel 0 TRANSFER_SIZE).2 = .running b) :
    start_client env fuel w
      = (⟨w.ops ++ env.setup_calls
            ++ (recv_loop env.recv env.socket BUF_SIZE fuel 0 TRANSFER_SIZE).1,
          w.out, env.socket :: w.fds⟩, none) := by
  obtain ⟨h1, h2, h3⟩ := hs
  simp [start_client, not_lt.mpr h1, h2, h3, hl, World.calls_recv_loop,
    World.call, World.print, Call.effect, ClientEnv.setup_calls]

/-- The run of `start_client` when its setup succeeds and the receive loop
exits. -/
theorem start_client_exited (env : ClientEnv) (fuel : Nat) (w : World) (hs : env.setup_ok)
    (b : Int)
    (hl : (recv_loop env.recv env.socket BUF_SIZE fuel 0 TRANSFER_SIZE).2 = .exited b) :
    start_client env fuel w
      = (⟨w.ops ++ env.setup_calls
            ++ (recv_loop env.recv env.socket BUF_SIZE fuel 0 TRANSFER_SIZE).1
            ++ [.close env.socket],
          w.out ++ [.printf "[recv]" env.elapsed],
          (env.socket :: w.fds).erase env.socket⟩,
        some 0) := by
  obtain ⟨h1, h2, h3⟩ := hs
  simp [start_client, not_lt.mpr h1, h2, h3, hl, World.calls_recv_loop,
    World.call, World.print, Call.effect, ClientEnv.setup_calls, ClientEnv.elapsed]

/-- The run of `start_client` when one of the three calls before the loop
fails: that call is the last one made, one diagnostic names it and the value is
-1. -/
theorem start_client_setup_failed (env : ClientEnv) (fuel : Nat) (w : World)
    (hs : ¬ env.setup_ok) :
    ∃ pre c fds1, start_client env fuel w
        = (⟨w.ops ++ pre ++ [c], w.out ++ [.perror c.name], fds1⟩, some (-1)) ∧
      c.failed = true ∧ (∀ d ∈ pre, d.failed = false) ∧
      (fds1 = w.fds ∨ fds1 = env.socket :: w.fds) := by
  by_cases h1 : env.socket < 0
  · exact ⟨[], .socket env.socket, w.fds,
      by simp [start_client, h1, World.call, World.print, Call.name, Call.effect],
      by simp [Call.failed, h1], by simp, Or.inl rfl⟩
  by_cases h2 : env.inet_pton = 1
  swap
  · exact ⟨[.socket env.socket], .inet_pton env.inet_pton, env.socket :: w.fds,
      by simp [start_client, h1, h2, World.call, World.print, Call.name, Call.effect],
      by simp [Call.failed, h2], by simp [Call.failed, h1], Or.inr rfl⟩
  by_cases h3 : env.connect = 0
  swap
  · exact ⟨[.socket env.socket, .inet_pton env.inet_pton],
      .connect env.socket env.connect, env.socket :: w.fds,
      by simp [start_client, h1, h2, h3, World.call, World.print, Call.name, Call.effect],
      by simp [Call.failed, h3], by simp [Call.failed, h1, h2], Or.inr rfl⟩
  exact absurd ⟨not_lt.mp h1, h2, h3⟩ hs

theorem client_setup_calls_ok (env : ClientEnv) (hs : env.setup_ok) :
    ∀ d ∈ env.setup_calls, d.failed = false := by
  obtain ⟨h1, h2, h3⟩ := hs
  simp [ClientEnv.setup_calls, Call.failed, h1, h2, h3]

/-- The three ways a run of `start_server` can stop: after a call that failed,
which is then the last call, with one diagnostic and the value -1; still inside
the send loop; or with the value 0 and one benchmark line. -/
theorem start_server_outcome (env : ServerEnv) (fuel : Nat) (fds : List Int) :
    (∃ pre c fds1, start_server env fuel (World.entry fds)
        = (⟨pre ++ [c], [.perror c.name], fds1⟩, some (-1)) ∧
        c.failed = true ∧ ∀ d ∈ pre, d.failed = false) ∨
    (env.setup_ok ∧
      (∃ b, (send_loop env.send env.accept BUF_SIZE fuel 0 TRANSFER_SIZE).2 = .running b) ∧
      start_server env fuel (World.entry fds)
        = (⟨env.setup_calls ++ (send_loop env.send env.accept BUF_SIZE fuel 0 TRANSFER_SIZE).1,
            [], env.accept :: env.socket :: fds⟩, none) ∧
      ∀ d ∈ (start_server env fuel (World.entry fds)).1.ops, d.failed = false) ∨
    ((start_server env fuel (World.entry fds)).2 = some 0 ∧
      (∃ t, (start_server env fuel (World.entry fds)).1.out = [.printf "[send]" t]) ∧
      ∀ d ∈ (start_server env fuel (World.entry fds)).1.ops, d.failed = false) := by
  by_cases hs : env.setup_ok
  · obtain ⟨hf1, hf2⟩ := send_loop_failures env.send env.accept BUF_SIZE fuel 0 TRANSFER_SIZE
    have hsetup := server_setup_calls_ok env hs
    cases hl : (send_loop env.send env.accept BUF_SIZE fuel 0 TRANSFER_SIZE).2 with
    | failed =>
      obtain ⟨pre, len, ret, hpre, hret, hall⟩ := hf1 hl
      refine Or.inl ⟨env.setup_calls ++ pre, .send env.accept len ret,
        env.accept :: env.socket :: fds, ?_, by simp [Call.failed, hret], ?_⟩
      · rw [start_server_failed env fuel _ hs hl, hpre]
        simp [World.entry, Call.name]
      · intro d hd
        rcases List.mem_append.mp hd with h | h
        · exact hsetup d h
        · exact hall d h
    | running b =>
      have hnf := hf2 (by rw [hl]; simp)
      have hrun := start_server_running env fuel (World.entry fds) hs b hl
      simp only [World.entry_ops, World.entry_out, World.entry_fds, List.nil_append] at hrun
      refine Or.inr (Or.inl ⟨hs, ⟨b, rfl⟩, hrun, ?_⟩)
      rw [hrun]
      intro d hd
      rcases List.mem_append.mp hd with h | h
      · exact hsetup d h
      · exact hnf d h
    | exited b =>
      have hnf := hf2 (by rw [hl]; simp)
      have hrun := start_server_exited env fuel (World.entry fds) hs b hl
      simp only [World.entry_ops, World.entry_out, World.entry_fds, List.nil_append] at hrun
      refine Or.inr (Or.inr ⟨by rw [hrun], ⟨_, by rw [hrun]⟩, ?_⟩)
      rw [hrun]
      intro d hd
      rcases List.mem_append.mp hd with h | h
      · rcases List.mem_append.mp h with h | h
        · exact hsetup d h
        · exact hnf d h
      · simp only [List.mem_cons, List.not_mem_nil, or_false] at h
        rcases h with h | h <;> simp [h, Call.failed]
  · obtain ⟨pre, c, fds1, hrun, hc, hall, _⟩ :=
      start_server_setup_failed env fuel (World.entry fds) hs
    refine Or.inl ⟨pre, c, fds1, ?_, hc, hall⟩
    simpa [World.entry] using hrun

/-- The three ways a run of `start_client` can stop: after a call that failed,
which is then the last call, with one diagnostic and the value -1; still inside
the receive loop; or with the value 0 and one benchmark line. -/
theorem start_client_outcome (env : ClientEnv) (fuel : Nat) (fds : List Int) :
    (∃ pre c fds1, start_client env fuel (World.entry fds)
        = (⟨pre ++ [c], [.perror c.name], fds1⟩, some (-1)) ∧
        c.failed = true ∧ ∀ d ∈ pre, d.failed = false) ∨
    (env.setup_ok ∧
      (∃ b, (recv_loop env.recv env.socket BUF_SIZE fuel 0 TRANSFER_SIZE).2 = .running b) ∧
      start_client env fuel (World.entry fds)
        = (⟨env.setup_calls ++ (recv_loop env.recv env.socket BUF_SIZE fuel 0 TRANSFER_SIZE).1,
            [], env.socket :: fds⟩, none) ∧
      ∀ d ∈ (start_client env fuel (World.entry fds)).1.ops, d.failed = false) ∨
    ((start_client env fuel (World.entry fds)).2 = some 0 ∧
      (∃ t, (start_client env fuel (World.entry fds)).1.out = [.printf "[recv]" t]) ∧
      ∀ d ∈ (start_client env fuel (World.entry fds)).1.ops, d.failed = false) := by
  by_cases hs : env.setup_ok
  · obtain ⟨hf1, hf2⟩ := recv_loop_failures env.recv env.socket BUF_SIZE fuel 0 TRANSFER_SIZE
    have hsetup := client_setup_calls_ok env hs
    cases hl : (recv_loop env.recv env.socket BUF_SIZE fuel 0 TRANSFER_SIZE).2 with
    | failed =>
      obtain ⟨pre, ret, hpre, hret, hall⟩ := hf1 hl
      refine Or.inl ⟨env.setup_calls ++ pre, .recv env.socket BUF_SIZE ret,
        env.socket :: fds, ?_, by simp [Call.failed, hret], ?_⟩
      · rw [start_client_failed env fuel _ hs hl, hpre]
        simp [World.entry, Call.name]
      · intro d hd
        rcases List.mem_append.mp hd with h | h
        · exact hsetup d h
        · exact hall d h
    | running b =>
      have hnf := hf2 (by rw [hl]; simp)
      have hrun := start_client_running env fuel (World.entry fds) hs b hl
      simp only [World.entry_ops, World.entry_out, World.entry_fds, List.nil_append] at hrun
      refine Or.inr (Or.inl ⟨hs, ⟨b, rfl⟩, hrun, ?_⟩)
      rw [hrun]
      intro d hd
      rcases List.mem_append.mp hd with h | h
      · exact hsetup d h
      · exact hnf d h
    | exited b =>
      have hnf := hf2 (by rw [hl]; simp)
      have hrun := start_client_exited env fuel (World.entry fds) hs b hl
      simp only [World.entry_ops, World.entry_out, World.entry_fds, List.nil_append] at hrun
      refine Or.inr (Or.inr ⟨by rw [hrun], ⟨_, by rw [hrun]⟩, ?_⟩)
      rw [hrun]
      intro d hd
      rcases List.mem_append.mp hd with h | h
      · rcases List.mem_append.mp h with h | h
        · exact hsetup d h
        · exact hnf d h
      · simp only [List.mem_cons, List.not_mem_nil, or_false] at h
        simp [h, Call.failed]
  · obtain ⟨pre, c, fds1, hrun, hc, hall, _⟩ :=
      start_client_setup_failed env fuel (World.entry fds) hs
    refine Or.inl ⟨pre, c, fds1, ?_, hc, hall⟩
    simpa [World.entry] using hrun

/-! ## Claims about the roles -/

/-- The receive loop when every `recv` returns 0: it calls `recv` again for as
long as it is allowed to, and `bytes` never changes. -/
theorem recv_loop_all_zero (fd chunk : Int) :
    ∀ (fuel i : Nat) (bytes : Int), 0 < bytes →
      recv_loop (fun _ => 0) fd chunk fuel i bytes
        = (List.replicate fuel (.recv fd chunk 0), .running bytes) := by
  intro fuel
  induction fuel with
  | zero => intro i bytes h; simp [recv_loop_zero, h]
  | succ n ih =>
    intro i bytes h
    rw [recv_loop_step _ fd chunk n i bytes h (le_refl 0)]
    simp only [sub_zero]
    rw [ih (i + 1) bytes h]
    simp [List.replicate_succ]

/-- The run of `start_client` against a peer that has closed the connection. -/
theorem truncated_peer_run (fuel : Nat) :
    start_client truncated_peer fuel (World.entry [])
      = (⟨[.socket 3, .inet_pton 1, .connect 3 0] ++ List.replicate fuel (.recv 3 4096 0),
          [], [3]⟩, none) := by
  have hl := recv_loop_all_zero 3 BUF_SIZE fuel 0 TRANSFER_SIZE (by norm_num [TRANSFER_SIZE])
  have hs : truncated_peer.setup_ok := by decide
  have h := start_client_running truncated_peer fuel (World.entry []) hs TRANSFER_SIZE
    (by rw [show truncated_peer.recv = fun _ => 0 from rfl,
      show truncated_peer.socket = 3 from rfl, hl])
  rw [h, show truncated_peer.recv = fun _ => 0 from rfl,
    show truncated_peer.socket = 3 from rfl, hl]
  rfl

/-- C4: a run of `start_client` in which the peer has closed the connection
before sending anything, so that every `recv` returns 0.  Whatever the number
`fuel` of iterations allowed, the role has made that many `recv` calls, has
printed nothing (no diagnostic) and has not returned: it does not end with a
failure result. -/
theorem start_client_truncated_hangs :
    ∀ fuel : Nat, start_client truncated_peer fuel (World.entry [])
      = (⟨[.socket 3, .inet_pton 1, .connect 3 0] ++ List.replicate fuel (.recv 3 4096 0),
          [], [3]⟩, none) :=
  truncated_peer_run

/-- What the three ways of stopping say about failures: a call that failed is
the last call, is named by the one diagnostic printed and gives the value -1;
and a run that returned gave 0 with one benchmark line exactly when no call
failed. -/
theorem outcome_report (tag : String) (r : World × Option Int)
    (h : (∃ pre c fds1, r = (⟨pre ++ [c], [.perror c.name], fds1⟩, some (-1)) ∧
          c.failed = true ∧ ∀ d ∈ pre, d.failed = false) ∨
        (r.2 = none ∧ ∀ d ∈ r.1.ops, d.failed = false) ∨
        (r.2 = some 0 ∧ (∃ t, r.1.out = [.printf tag t]) ∧
          ∀ d ∈ r.1.ops, d.failed = false)) :
    (∀ c ∈ r.1.ops, c.failed = true →
      ∃ pre, r.1.ops = pre ++ [c] ∧ (∀ d ∈ pre, d.failed = false) ∧
        r.1.out = [.perror c.name] ∧ r.2 = some (-1)) ∧
    (r.2 ≠ none →
      ((r.2 = some 0 ∧ ∃ t, r.1.out = [.printf tag t]) ↔
        ∀ c ∈ r.1.ops, c.failed = false)) := by
  rcases h with ⟨pre, c0, fds1, hr, hc0, hpre⟩ | ⟨hnone, hall⟩ | ⟨hret, hout, hall⟩
  · subst hr
    constructor
    · intro c hc hfail
      rcases List.mem_append.mp hc with h1 | h1
      · rw [hpre c h1] at hfail
        exact absurd hfail (by decide)
      · rw [List.mem_singleton.mp h1]
        exact ⟨pre, rfl, hpre, rfl, rfl⟩
    · intro _
      constructor
      · rintro ⟨h0, _⟩
        simp at h0
      · intro hall
        have := hall c0 (List.mem_append.mpr (Or.inr (List.mem_singleton.mpr rfl)))
        rw [hc0] at this
        exact absurd this (by decide)
  · constructor
    · intro c hc hfail
      rw [hall c hc] at hfail
      exact absurd hfail (by decide)
    · intro hne
      exact absurd hnone hne
  · constructor
    · intro c hc hfail
      rw [hall c hc] at hfail
      exact absurd hfail (by decide)
    · intro _
      exact ⟨fun _ => hall, fun _ => ⟨hret, hout⟩⟩

/-- Failure handling in both roles: a call that failed is the last call the
role made (no later socket operation), the role printed exactly one line, the
diagnostic naming that call, and returned -1; and when the role has returned,
it returned 0 having printed exactly one line, the benchmark line, if and only
if no call failed. -/
theorem roles_failure_handling (senv : ServerEnv) (cenv : ClientEnv) (fuel : Nat)
    (fds : List Int) :
    ((∀ c ∈ (start_server senv fuel (World.entry fds)).1.ops, c.failed = true →
        ∃ pre, (start_server senv fuel (World.entry fds)).1.ops = pre ++ [c] ∧
          (∀ d ∈ pre, d.failed = false) ∧
          (start_server senv fuel (World.entry fds)).1.out = [.perror c.name] ∧
          (start_server senv fuel (World.entry fds)).2 = some (-1)) ∧
      ((start_server senv fuel (World.entry fds)).2 ≠ none →
        (((start_server senv fuel (World.entry fds)).2 = some 0 ∧
            ∃ t, (start_server senv fuel (World.entry fds)).1.out = [.printf "[send]" t]) ↔
          ∀ c ∈ (start_server senv fuel (World.entry fds)).1.ops, c.failed = false))) ∧
    ((∀ c ∈ (start_client cenv fuel (World.entry fds)).1.ops, c.failed = true →
        ∃ pre, (start_client cenv fuel (World.entry fds)).1.ops = pre ++ [c] ∧
          (∀ d ∈ pre, d.failed = false) ∧
          (start_client cenv fuel (World.entry fds)).1.out = [.perror c.name] ∧
          (start_client cenv fuel (World.entry fds)).2 = some (-1)) ∧
      ((start_client cenv fuel (World.entry fds)).2 ≠ none →
        (((start_client cenv fuel (World.entry fds)).2 = some 0 ∧
            ∃ t, (start_client cenv fuel (World.entry fds)).1.out = [.printf "[recv]" t]) ↔
          ∀ c ∈ (start_client cenv fuel (World.entry fds)).1.ops, c.failed = false))) := by
  constructor
  · exact outcome_report "[send]" (start_server senv fuel (World.entry fds))
      (by
        rcases start_server_outcome senv fuel fds with h | ⟨_, _, hrun, hall⟩ | h
        · exact Or.inl h
        · exact Or.inr (Or.inl ⟨by rw [hrun], hall⟩)
        · exact Or.inr (Or.inr h))
  · exact outcome_report "[recv]" (start_client cenv fuel (World.entry fds))
      (by
        rcases start_client_outcome cenv fuel fds with h | ⟨_, _, hrun, hall⟩ | h
        · exact Or.inl h
        · exact Or.inr (Or.inl ⟨by rw [hrun], hall⟩)
        · exact Or.inr (Or.inr h))

/-- C6: a run of `start_client` against a peer that has closed the connection,
so that every `recv` returns 0.  However many iterations are allowed, no call
the role has made has failed, and the role has not returned: it never returns 0
with a benchmark line although no operation fails. -/
theorem no_failure_yet_no_return :
    (¬ ∃ fuel : Nat, (start_client truncated_peer fuel (World.entry [])).2 ≠ none) ∧
    (¬ ∃ fuel : Nat, ∃ c ∈ (start_client truncated_peer fuel (World.entry [])).1.ops,
        c.failed = true) ∧
    (¬ ∃ fuel : Nat, (start_client truncated_peer fuel (World.entry [])).1.out ≠ []) := by
  refine ⟨?_, ?_, ?_⟩
  · rintro ⟨fuel, h⟩
    rw [truncated_peer_run] at h
    exact h rfl
  · rintro ⟨fuel, c, hc, hfail⟩
    rw [truncated_peer_run] at hc
    simp only [List.mem_append, List.mem_cons, List.not_mem_nil, or_false] at hc
    rcases hc with (h | h | h) | h
    · rw [h] at hfail; exact absurd hfail (by decide)
    · rw [h] at hfail; exact absurd hfail (by decide)
    · rw [h] at hfail; exact absurd hfail (by decide)
    · rw [List.eq_of_mem_replicate h] at hfail; exact absurd hfail (by decide)
  · rintro ⟨fuel, h⟩
    rw [truncated_peer_run] at h
    exact h rfl

/-! ## The clock -/

theorem wrapLong_id (x : Int) (h1 : -2 ^ 63 ≤ x) (h2 : x < 2 ^ 63) : wrapLong x = x := by
  unfold wrapLong
  omega

/-- The value of `milliseconds` on a reading that fits. -/
theorem milliseconds_fits (tp : timespec) (h : tp.fits) :
    milliseconds (some tp) = tp.tv_sec * 1000 + tp.tv_nsec / 1000000 := by
  obtain ⟨h1, h2, h3, h4⟩ := h
  have hd : Int.tdiv tp.tv_nsec (1000 * 1000) = tp.tv_nsec / 1000000 := by
    rw [Int.tdiv_eq_ediv h2 (by norm_num)]
    norm_num
  have hq : 0 ≤ tp.tv_nsec / 1000000 := by omega
  simp only [milliseconds, hd]
  rw [wrapLong_id (tp.tv_sec * 1000) (by omega) (by omega)]
  exact wrapLong_id _ (by omega) (by omega)

/-- C9, counterexample: for the reading `tv_sec = 9223372036854776`,
`tv_nsec = 0`, which is later than `tv_sec = 9223372036854775`, `tv_nsec = 0`,
the product `tv_sec * 1000` does not fit a `long`; `milliseconds` returns
-9223372036854775616, not `tv_sec * 1000 + tv_nsec div 1000000`, and less than
what it returns for the earlier reading. -/
theorem milliseconds_wraps :
    milliseconds (some ⟨9223372036854776, 0⟩) = -9223372036854775616 ∧
    milliseconds (some ⟨9223372036854776, 0⟩)
      ≠ 9223372036854776 * 1000 + Int.tdiv 0 1000000 ∧
    timespec.le ⟨9223372036854775, 0⟩ ⟨9223372036854776, 0⟩ ∧
    milliseconds (some ⟨9223372036854776, 0⟩) < milliseconds (some ⟨9223372036854775, 0⟩) := by
  decide

/-- C9, amended: `milliseconds` returns 0 when the clock cannot be read; for a
reading with `0 <= tv_sec`, `0 <= tv_nsec < 10^9` whose value in milliseconds
fits a `long` it returns `tv_sec * 1000 + tv_nsec div 1000000`; on such readings
it is non-decreasing in the reading, and the elapsed time `milliseconds() - time`
between an earlier and a later one is not negative. -/
theorem milliseconds_spec :
    milliseconds none = 0 ∧
    (∀ tp : timespec, tp.fits →
      milliseconds (some tp) = tp.tv_sec * 1000 + tp.tv_nsec / 1000000) ∧
    (∀ a b : timespec, a.fits → b.fits → a.le b →
      milliseconds (some a) ≤ milliseconds (some b) ∧
      0 ≤ wrapLong (milliseconds (some b) - milliseconds (some a))) := by
  refine ⟨rfl, milliseconds_fits, fun a b ha hb hab => ?_⟩
  rw [milliseconds_fits a ha, milliseconds_fits b hb]
  obtain ⟨a1, a2, a3, a4⟩ := ha
  obtain ⟨b1, b2, b3, b4⟩ := hb
  have hle : a.tv_sec * 1000 + a.tv_nsec / 1000000 ≤ b.tv_sec * 1000 + b.tv_nsec / 1000000 := by
    rcases hab with h | ⟨h1, h2⟩
    · omega
    · omega
  refine ⟨hle, ?_⟩
  rw [wrapLong_id _ (by omega) (by omega)]
  omega

/-- Witness for C9 (amended): the readings 100 s and 102.5 s. -/
theorem milliseconds_spec_witness :
    (timespec.fits ⟨100, 0⟩ ∧ timespec.fits ⟨102, 500000000⟩ ∧
      timespec.le ⟨100, 0⟩ ⟨102, 500000000⟩) ∧
    milliseconds (some ⟨102, 500000000⟩) = 102 * 1000 + 500000000 / 1000000 ∧
    milliseconds (some ⟨100, 0⟩) ≤ milliseconds (some ⟨102, 500000000⟩) ∧
    0 ≤ wrapLong (milliseconds (some ⟨102, 500000000⟩) - milliseconds (some ⟨100, 0⟩)) :=
  ⟨⟨by decide, by decide, by decide⟩,
    milliseconds_spec.2.1 ⟨102, 500000000⟩ (by decide),
    milliseconds_spec.2.2 ⟨100, 0⟩ ⟨102, 500000000⟩ (by decide) (by decide) (by decide)⟩

/-! ## The function `main` -/

/-- A run of `start_client` adds its calls and its lines to those already in
the world, and otherwise depends on the world only through the open handles. -/
theorem start_client_frame (env : ClientEnv) (fuel : Nat) (w : World) :
    start_client env fuel w
      = (⟨w.ops ++ (start_client env fuel (World.entry w.fds)).1.ops,
          w.out ++ (start_client env fuel (World.entry w.fds)).1.out,
          (start_client env fuel (World.entry w.fds)).1.fds⟩,
        (start_client env fuel (World.entry w.fds)).2) := by
  by_cases hs : env.setup_ok
  · cases hl : (recv_loop env.recv env.socket BUF_SIZE fuel 0 TRANSFER_SIZE).2 with
    | failed =>
      rw [start_client_failed env fuel w hs hl,
        start_client_failed env fuel (World.entry w.fds) hs hl]
      simp [World.entry]
    | running b =>
      rw [start_client_running env fuel w hs b hl,
        start_client_running env fuel (World.entry w.fds) hs b hl]
      simp [World.entry]
    | exited b =>
      rw [start_client_exited env fuel w hs b hl,
        start_client_exited env fuel (World.entry w.fds) hs b hl]
      simp [World.entry]
  · by_cases h1 : env.socket < 0
    · simp [start_client, h1, World.call, World.print, World.entry, Call.effect]
    by_cases h2 : env.inet_pton = 1
    swap
    · simp [start_client, h1, h2, World.call, World.print, World.entry, Call.effect]
    by_cases h3 : env.connect = 0
    swap
    · simp [start_client, h1, h2, h3, World.call, World.print, World.entry, Call.effect]
    exact absurd ⟨not_lt.mp h1, h2, h3⟩ hs

/-- The first call of `start_client` is `socket`, whatever happens next. -/
theorem start_client_first_call (env : ClientEnv) (fuel : Nat) (fds : List Int) :
    ∃ rest, (start_client env fuel (World.entry fds)).1.ops = .socket env.socket :: rest := by
  by_cases hs : env.setup_ok
  · cases hl : (recv_loop env.recv env.socket BUF_SIZE fuel 0 TRANSFER_SIZE).2 with
    | failed =>
      rw [start_client_failed env fuel _ hs hl]
      exact ⟨_, by simp [World.entry, ClientEnv.setup_calls]; rfl⟩
    | running b =>
      rw [start_client_running env fuel _ hs b hl]
      exact ⟨_, by simp [World.entry, ClientEnv.setup_calls]; rfl⟩
    | exited b =>
      rw [start_client_exited env fuel _ hs b hl]
      exact ⟨_, by simp [World.entry, ClientEnv.setup_calls]; rfl⟩
  · by_cases h1 : env.socket < 0
    · exact ⟨[], by simp [start_client, h1, World.call, World.print, World.entry]⟩
    by_cases h2 : env.inet_pton = 1
    swap
    · exact ⟨_, by simp [start_client, h1, h2, World.call, World.print, World.entry]; rfl⟩
    by_cases h3 : env.connect = 0
    swap
    · exact ⟨_, by simp [start_client, h1, h2, h3, World.call, World.print, World.entry]; rfl⟩
    exact absurd ⟨not_lt.mp h1, h2, h3⟩ hs

/-- C10: whatever value `rv` the server role returns (0 or -1), `main` goes on
to run the client role once: the calls and the lines of `main` are those of the
server role followed by those of one run of `start_client`, which begins with
its `socket` call; `main` returns 0 as soon as the client role has returned,
whatever the two roles returned, and in particular when both returned 0. -/
theorem main_runs_both_roles (senv : ServerEnv) (cenv : ClientEnv) (fuel : Nat)
    (w ws : World) (rv : Int) (hs : start_server senv fuel w = (ws, some rv)) :
    (main senv cenv fuel w).1.ops
      = ws.ops ++ (start_client cenv fuel (World.entry ws.fds)).1.ops ∧
    (main senv cenv fuel w).1.out
      = ws.out ++ (start_client cenv fuel (World.entry ws.fds)).1.out ∧
    (∃ rest, (start_client cenv fuel (World.entry ws.fds)).1.ops
      = .socket cenv.socket :: rest) ∧
    (∀ rc, (start_client cenv fuel (World.entry ws.fds)).2 = some rc →
      (main senv cenv fuel w).2 = some 0) ∧
    ((start_client cenv fuel (World.entry ws.fds)).2 = none →
      (main senv cenv fuel w).2 = none) := by
  have hframe := start_client_frame cenv fuel ws
  have hmain : main senv cenv fuel w
      = match start_client cenv fuel ws with
        | (w2, none) => (w2, none)
        | (w2, some _) => (w2, some 0) := by
    simp only [main, hs]
  cases hc : (start_client cenv fuel (World.entry ws.fds)).2 with
  | none =>
    rw [hc] at hframe
    rw [hmain, hframe]
    exact ⟨rfl, rfl, start_client_first_call cenv fuel ws.fds, fun rc h => by simp at h,
      fun _ => rfl⟩
  | some rc =>
    rw [hc] at hframe
    rw [hmain, hframe]
    exact ⟨rfl, rfl, start_client_first_call cenv fuel ws.fds, fun _ _ => rfl,
      fun h => by simp at h⟩

/-- Witness for C10: the server role fails at `socket`, and `main` still runs
the client role, here with the connection refused, and returns 0. -/
theorem main_runs_both_roles_witness :
    start_server no_socket 0 (World.entry [])
      = (⟨[.socket (-1)], [.perror "socket"], []⟩, some (-1)) ∧
    (main no_socket connection_refused 0 (World.entry [])).1.ops
      = [.socket (-1)] ++ (start_client connection_refused 0 (World.entry [])).1.ops ∧
    (main no_socket connection_refused 0 (World.entry [])).2 = some 0 := by
  have hs : start_server no_socket 0 (World.entry [])
      = (⟨[.socket (-1)], [.perror "socket"], []⟩, some (-1)) := by decide
  have h := main_runs_both_roles no_socket connection_refused 0 (World.entry [])
    ⟨[.socket (-1)], [.perror "socket"], []⟩ (-1) hs
  exact ⟨hs, h.1, h.2.2.2.1 (-1) (by decide)⟩

/-! ## Complete runs -/

/-- The send loop of `start_server` on `good_server`. -/
theorem good_server_loop (fuel : Nat) (hfuel : 262144 ≤ fuel) :
    send_loop good_server.send good_server.accept BUF_SIZE fuel 0 TRANSFER_SIZE
      = (List.replicate 262144 (.send 4 BUF_SIZE BUF_SIZE), .exited 0) := by
  apply send_whole_transfer _ _ fuel hfuel
  intro c hc
  rw [transfer_size_chunks] at hc
  rw [send_loop_const_chunk 4 BUF_SIZE (by norm_num [BUF_SIZE]) fuel 262144 0 c hc]
  rfl

/-- The complete run of `start_server` on `good_server`. -/
theorem good_server_run (fuel : Nat) (hfuel : 262144 ≤ fuel) (fds : List Int) :
    start_server good_server fuel (World.entry fds)
      = (⟨[.socket 3, .inet_pton 1, .setsockopt 3 0, .bind 3 0, .listen 3 0, .accept 3 4]
            ++ List.replicate 262144 (.send 4 4096 4096) ++ [.close 4, .close 3],
          [.printf "[send]" 2500],
          ((4 :: 3 :: fds).erase 4).erase 3⟩, some 0) := by
  rw [start_server_exited good_server fuel _ (by decide) 0
    (by rw [good_server_loop fuel hfuel]), good_server_loop fuel hfuel]
  have he : good_server.elapsed = 2500 := by decide
  rw [he]
  rfl

theorem closeCount_good_server (fd : Int) (h : fd = 3 ∨ fd = 4) :
    closeCount fd ([.socket 3, .inet_pton 1, .setsockopt 3 0, .bind 3 0, .listen 3 0,
        .accept 3 4] ++ List.replicate 262144 (.send 4 4096 4096) ++ [.close 4, .close 3])
      = 1 := by
  unfold closeCount
  rw [List.count_append, List.count_append, List.count_replicate]
  rcases h with h | h <;> subst h <;> decide

/-- C5: on the error paths no handle is closed.  When `bind` fails,
`start_server` returns -1 having made no `close` call, and the listening socket
3 it opened is still open; when `connect` fails, `start_client` returns -1
having made no `close` call, and its socket 3 is still open.  On the normal
path of `start_server`, by contrast, both handles are closed once and the set of
open handles is the one at entry. -/
theorem error_paths_leak_sockets :
    (∀ fuel : Nat, start_server bind_in_use fuel (World.entry [])
      = (⟨[.socket 3, .inet_pton 1, .setsockopt 3 0, .bind 3 (-1)], [.perror "bind"], [3]⟩,
          some (-1))) ∧
    closeCount 3 [.socket 3, .inet_pton 1, .setsockopt 3 0, .bind 3 (-1)] = 0 ∧
    (∀ fuel : Nat, start_client connection_refused fuel (World.entry [])
      = (⟨[.socket 3, .inet_pton 1, .connect 3 (-1)], [.perror "connect"], [3]⟩,
          some (-1))) ∧
    closeCount 3 [.socket 3, .inet_pton 1, .connect 3 (-1)] = 0 ∧
    ((start_server good_server 262144 (World.entry [])).2 = some 0 ∧
      (start_server good_server 262144 (World.entry [])).1.fds = [] ∧
      closeCount 3 (start_server good_server 262144 (World.entry [])).1.ops = 1 ∧
      closeCount 4 (start_server good_server 262144 (World.entry [])).1.ops = 1) := by
  refine ⟨fun fuel => ?_, by decide, fun fuel => ?_, by decide, ?_⟩
  · simp [start_server, bind_in_use, good_server, World.entry, World.call, World.print,
      Call.effect]
  · simp [start_client, connection_refused, good_client, World.entry, World.call, World.print,
      Call.effect]
  · rw [good_server_run 262144 (le_refl _) []]
    exact ⟨rfl, by decide, closeCount_good_server 3 (Or.inl rfl),
      closeCount_good_server 4 (Or.inr rfl)⟩

end Speedtest
